import Mathlib

/-!
Formal model of the collaboration core of the Collaborative-canvas server:
the vector clocks and the per-room operation log of `server/VectorClock.js`
(classes `VectorClock` and `OperationLog`), and the room/session directory
of `RoomManager`.  JavaScript objects used as string-keyed dictionaries are
modelled as association lists that keep insertion order (as JS objects and
`Map`s do); wall-clock reads (`Date.now()`) and random id/colour generation
are passed in as explicit parameters.
-/

set_option maxRecDepth 16384

namespace Canvas

/-- A vector clock: a JS object mapping user ids to counters, kept in
insertion order.  Missing keys read as 0. -/
abbrev Clock := List (String × Nat)

/-- Read of `clock[userId] || 0`: the first entry for the key, defaulting 0. -/
def clockGet (c : Clock) (u : String) : Nat :=
  match c.find? (fun p => p.1 == u) with
  | some p => p.2
  | none => 0

/-- JS object assignment `clock[u] = v`: update in place when the key is
present, otherwise append (JS objects keep insertion order). -/
def clockSet (c : Clock) (u : String) (v : Nat) : Clock :=
  if c.any (fun p => p.1 == u) then
    c.map (fun p => if p.1 == u then (p.1, v) else p)
  else
    c ++ [(u, v)]

/-- `VectorClock.increment(userId)`: raise the user's counter by one
(defaulting 0 when absent or falsy). -/
def vcIncrement (c : Clock) (u : String) : Clock :=
  clockSet c u (clockGet c u + 1)

/-- `VectorClock.update(remoteClock)`: pointwise max merge of the remote
clock into the local one. -/
def vcUpdate (c : Clock) (remote : Clock) : Clock :=
  remote.foldl (fun acc p => clockSet acc p.1 (max (clockGet acc p.1) p.2)) c

/-- The union of the key sets of two clocks, in first-seen order
(`new Set([...keys(A), ...keys(B)])`). -/
def keysUnion (a b : Clock) : List String :=
  (a.map Prod.fst ++ b.map Prod.fst).dedup

/-- `hasLess` accumulator of `VectorClock.compare`: some component of `a`
is strictly below the matching component of `b`. -/
def hasLess (a b : Clock) : Bool :=
  (keysUnion a b).any (fun u => clockGet a u < clockGet b u)

/-- `hasGreater` accumulator of `VectorClock.compare`. -/
def hasGreater (a b : Clock) : Bool :=
  (keysUnion a b).any (fun u => clockGet b u < clockGet a u)

/-- `VectorClock.compare(clockA, clockB)` on two present (non-null) clocks:
−1 when A happened before B, +1 for the mirror, 0 for concurrent or equal. -/
def vcCompare (a b : Clock) : Int :=
  if hasLess a b ∧ ¬ hasGreater a b then -1
  else if hasGreater a b ∧ ¬ hasLess a b then 1
  else 0

/-- `VectorClock.compare` including the guard `if (!clockA || !clockB)
return 0`: a null/undefined clock compares as 0 against anything. -/
def vcCompareOpt (a b : Option Clock) : Int :=
  match a, b with
  | some ca, some cb => vcCompare ca cb
  | _, _ => 0

theorem clockGet_eq_zero_of_not_mem {c : Clock} {u : String}
    (h : u ∉ c.map Prod.fst) : clockGet c u = 0 := by
  unfold clockGet
  cases hf : c.find? (fun p => p.1 == u) with
  | none => rfl
  | some p =>
    exfalso
    have hp := List.find?_some hf
    have hmem := List.mem_of_find?_eq_some hf
    apply h
    simp only [beq_iff_eq] at hp
    exact hp ▸ List.mem_map_of_mem Prod.fst hmem

theorem mem_keysUnion_iff {a b : Clock} {u : String} :
    u ∈ keysUnion a b ↔ u ∈ a.map Prod.fst ∨ u ∈ b.map Prod.fst := by
  unfold keysUnion
  rw [List.mem_dedup, List.mem_append]

theorem hasLess_iff {a b : Clock} :
    hasLess a b = true ↔ ∃ u : String, clockGet a u < clockGet b u := by
  unfold hasLess
  rw [List.any_eq_true]
  constructor
  · rintro ⟨u, _, hu⟩
    exact ⟨u, by simpa using hu⟩
  · rintro ⟨u, hu⟩
    refine ⟨u, ?_, by simpa using hu⟩
    rw [mem_keysUnion_iff]
    by_contra hnot
    push_neg at hnot
    have ha := clockGet_eq_zero_of_not_mem hnot.1
    have hb := clockGet_eq_zero_of_not_mem hnot.2
    omega

theorem hasGreater_iff {a b : Clock} :
    hasGreater a b = true ↔ ∃ u : String, clockGet b u < clockGet a u := by
  unfold hasGreater
  rw [List.any_eq_true]
  constructor
  · rintro ⟨u, _, hu⟩
    exact ⟨u, by simpa using hu⟩
  · rintro ⟨u, hu⟩
    refine ⟨u, ?_, by simpa using hu⟩
    rw [mem_keysUnion_iff]
    by_contra hnot
    push_neg at hnot
    have ha := clockGet_eq_zero_of_not_mem hnot.1
    have hb := clockGet_eq_zero_of_not_mem hnot.2
    omega

theorem hasGreater_eq_hasLess_swap (a b : Clock) :
    hasGreater a b = hasLess b a := by
  rw [Bool.eq_iff_iff, hasGreater_iff, hasLess_iff]

theorem hasLess_self (a : Clock) : hasLess a a = false := by
  cases h : hasLess a a with
  | false => rfl
  | true =>
    rw [hasLess_iff] at h
    obtain ⟨u, hu⟩ := h
    omega

theorem vcCompare_neg_one_iff {a b : Clock} :
    vcCompare a b = -1 ↔ (hasLess a b = true ∧ hasGreater a b = false) := by
  unfold vcCompare
  by_cases h1 : hasLess a b = true ∧ ¬ hasGreater a b = true
  · simp only [if_pos h1]
    constructor
    · intro _
      exact ⟨h1.1, Bool.not_eq_true _ ▸ h1.2⟩
    · intro _; trivial
  · rw [if_neg h1]
    constructor
    · intro hcontra
      by_cases h2 : hasGreater a b = true ∧ ¬ hasLess a b = true
      · rw [if_pos h2] at hcontra; exact absurd hcontra (by decide)
      · rw [if_neg h2] at hcontra; exact absurd hcontra (by decide)
    · rintro ⟨hl, hg⟩
      exact absurd ⟨hl, by simp [hg]⟩ h1

theorem vcCompare_pos_one_iff {a b : Clock} :
    vcCompare a b = 1 ↔ (hasGreater a b = true ∧ hasLess a b = false) := by
  unfold vcCompare
  by_cases h1 : hasLess a b = true ∧ ¬ hasGreater a b = true
  · rw [if_pos h1]
    constructor
    · intro hcontra; exact absurd hcontra (by decide)
    · rintro ⟨hg, _⟩; exact absurd hg h1.2
  · rw [if_neg h1]
    by_cases h2 : hasGreater a b = true ∧ ¬ hasLess a b = true
    · rw [if_pos h2]
      exact ⟨fun _ => ⟨h2.1, Bool.not_eq_true _ ▸ h2.2⟩, fun _ => rfl⟩
    · rw [if_neg h2]
      constructor
      · intro hcontra; exact absurd hcontra (by decide)
      · rintro ⟨hg, hl⟩
        exact absurd ⟨hg, by simp [hl]⟩ h2

theorem vcCompare_antisymm (a b : Clock) : vcCompare a b = -(vcCompare b a) := by
  unfold vcCompare
  rw [hasGreater_eq_hasLess_swap a b, hasGreater_eq_hasLess_swap b a]
  cases hasLess a b <;> cases hasLess b a <;> simp

theorem hasGreater_false_iff {a b : Clock} :
    hasGreater a b = false ↔ ∀ u : String, clockGet a u ≤ clockGet b u := by
  rw [← Bool.not_eq_true, hasGreater_iff]
  push_neg
  rfl

/-- C5. Laws of `VectorClock.compare` on present clocks: the result is one
of −1, 0, +1; reflexivity gives 0; swapping the arguments negates the
result; −1 holds exactly when A is pointwise ≤ B with at least one strict
drop (keys absent from both clocks read as 0); and two −1 steps can never
compose to a +1. -/
theorem c5_vcCompare_laws (A B C : Clock) :
    (vcCompare A B = -1 ∨ vcCompare A B = 0 ∨ vcCompare A B = 1) ∧
    vcCompare A A = 0 ∧
    vcCompare A B = -(vcCompare B A) ∧
    (vcCompare A B = -1 ↔
      (∀ u : String, clockGet A u ≤ clockGet B u) ∧
      (∃ u : String, clockGet A u < clockGet B u)) ∧
    (vcCompare A B = -1 → vcCompare B C = -1 → vcCompare A C ≠ 1) := by
  refine ⟨?_, ?_, ?_, ?_, ?_⟩
  · unfold vcCompare
    by_cases h1 : hasLess A B = true ∧ ¬ hasGreater A B = true
    · rw [if_pos h1]; left; rfl
    · rw [if_neg h1]
      by_cases h2 : hasGreater A B = true ∧ ¬ hasLess A B = true
      · rw [if_pos h2]; right; right; rfl
      · rw [if_neg h2]; right; left; rfl
  · unfold vcCompare
    rw [hasGreater_eq_hasLess_swap A A, hasLess_self A]
    simp
  · exact vcCompare_antisymm A B
  · rw [vcCompare_neg_one_iff]
    rw [hasLess_iff, hasGreater_false_iff]
    tauto
  · intro hab hbc
    rw [vcCompare_neg_one_iff] at hab hbc
    have hab2 := hasGreater_false_iff.mp hab.2
    have hbc2 := hasGreater_false_iff.mp hbc.2
    intro hac
    rw [vcCompare_pos_one_iff] at hac
    rw [hasGreater_iff] at hac
    obtain ⟨u, hu⟩ := hac.1
    have := hab2 u
    have := hbc2 u
    omega

/-- Witness for C5 at concrete clocks, discharging the hypotheses of the
final implication. -/
theorem c5_vcCompare_laws_witness :
    vcCompare [("a", 1)] [("a", 3), ("b", 1)] ≠ 1 :=
  (c5_vcCompare_laws [("a", 1)] [("a", 2)] [("a", 3), ("b", 1)]).2.2.2.2
    (by decide) (by decide)

/-- Payload of an operation: a stroke (opaque to the server) or the small
record `clearOperations` attaches to a clear. -/
inductive OpData where
  | strokeData (payload : String)
  | clearData (clearedCount : Nat) (timestamp : Nat)
  deriving DecidableEq, Repr

/-- One entry of the operation log, as built by `OperationLog.addOperation`.
The audit fields are absent until the matching state transition sets them. -/
structure Operation where
  id : String
  type : String
  data : OpData
  userId : String
  state : String
  vectorClock : Option Clock
  timestamp : Nat
  roomId : String
  undoneBy : Option String := none
  undoneAt : Option Nat := none
  redoneBy : Option String := none
  redoneAt : Option Nat := none
  deriving DecidableEq, Repr

/-- The comparator closure of `VectorClock.sortEvents`: causal order when
both events carry a clock and it decides, wall-clock difference otherwise. -/
def eventCompare (a b : Operation) : Int :=
  match a.vectorClock, b.vectorClock with
  | some ca, some cb =>
    if vcCompare ca cb ≠ 0 then vcCompare ca cb
    else (a.timestamp : Int) - b.timestamp
  | _, _ => (a.timestamp : Int) - b.timestamp

/-- Stable insertion of one event: it goes in front of the first element it
does not compare after. -/
def sortInsert (x : Operation) : List Operation → List Operation
  | [] => [x]
  | y :: ys => if eventCompare x y ≤ 0 then x :: y :: ys else y :: sortInsert x ys

/-- `VectorClock.sortEvents(events)`: `Array.prototype.sort` with the causal
comparator, modelled as a stable insertion sort (ECMA-262 requires sort to be
stable; elements that compare ≤ 0 keep their relative order). -/
def sortEvents : List Operation → List Operation
  | [] => []
  | x :: xs => sortInsert x (sortEvents xs)

/-- State of one `OperationLog` (class fields `roomId`, `operations`,
`vectorClock`, `createdAt`). -/
structure OperationLog where
  roomId : String
  operations : List Operation
  vectorClock : Clock
  createdAt : Nat
  deriving DecidableEq, Repr

/-- `this.maxOperations = 1000`. -/
def maxOperations : Nat := 1000

/-- The `OperationLog` constructor. -/
def OperationLog.new (roomId : String) (now : Nat) : OperationLog :=
  { roomId := roomId, operations := [], vectorClock := [], createdAt := now }

/-- `generateOperationId(userId)`; the wall clock and the random suffix are
explicit parameters. -/
def generateOperationId (userId : String) (now : Nat) (nonce : String) : String :=
  userId ++ "_" ++ toString now ++ "_" ++ nonce

/-- `trimOperations()`: when over the cap, drop the excess from the front. -/
def trimOperations (ops : List Operation) : List Operation :=
  if ops.length > maxOperations then ops.drop (ops.length - maxOperations) else ops

/-- `addOperation(userId, type, data)`: bump the room clock for the author,
stamp and append the operation, trim to the cap. -/
def addOperation (log : OperationLog) (userId ty : String) (data : OpData)
    (now : Nat) (nonce : String) : Operation × OperationLog :=
  let vc := vcIncrement log.vectorClock userId
  let operation : Operation :=
    { id := generateOperationId userId now nonce,
      type := ty, data := data, userId := userId,
      state := "active", vectorClock := some vc,
      timestamp := now, roomId := log.roomId }
  (operation,
   { log with vectorClock := vc,
              operations := trimOperations (log.operations ++ [operation]) })

/-- Result shape of undo/redo: `\x7bsuccess:true, operation\x7d` or
`\x7bsuccess:false, error\x7d`. -/
inductive LogResult where
  | ok (operation : Operation)
  | err (error : String)
  deriving DecidableEq, Repr

/-- Replace a log's operation list, the other fields unchanged. -/
def withOps (log : OperationLog) (ops : List Operation) : OperationLog :=
  { log with operations := ops }

/-- Apply `f` to the first element satisfying `p` (JS mutates the object
returned by `find`, which is the first match). -/
def updateFirst (p : Operation → Bool) (f : Operation → Operation) :
    List Operation → List Operation
  | [] => []
  | x :: xs => if p x then f x :: xs else x :: updateFirst p f xs

/-- The state transition `undoOperation` applies to the found operation. -/
def markUndone (userId : String) (now : Nat) (op : Operation) : Operation :=
  { op with state := "undone", undoneBy := some userId, undoneAt := some now }

/-- The state transition `redoOperation` applies to the found operation. -/
def markRedone (userId : String) (now : Nat) (op : Operation) : Operation :=
  { op with state := "active", redoneBy := some userId, redoneAt := some now }

/-- `undoOperation(operationId, userId)`. -/
def undoOperation (log : OperationLog) (operationId userId : String) (now : Nat) :
    LogResult × OperationLog :=
  match log.operations.find? (fun op => op.id == operationId) with
  | none => (LogResult.err "Operation not found", log)
  | some op =>
    if op.state != "active" then
      (LogResult.err "Operation already undone", log)
    else
      let newOps :=
        updateFirst (fun o => o.id == operationId) (markUndone userId now)
          log.operations
      (LogResult.ok (markUndone userId now op), { log with operations := newOps })

/-- `redoOperation(operationId, userId)`. -/
def redoOperation (log : OperationLog) (operationId userId : String) (now : Nat) :
    LogResult × OperationLog :=
  match log.operations.find? (fun op => op.id == operationId) with
  | none => (LogResult.err "Operation not found", log)
  | some op =>
    if op.state != "undone" then
      (LogResult.err "Operation is not undone", log)
    else
      let newOps :=
        updateFirst (fun o => o.id == operationId) (markRedone userId now)
          log.operations
      (LogResult.ok (markRedone userId now op), { log with operations := newOps })

/-- `getActiveOperations()`. -/
def getActiveOperations (log : OperationLog) : List Operation :=
  log.operations.filter (fun op => op.state == "active")

/-- The per-operation mutation of the `forEach` in `clearOperations`: any
still-active op other than the fresh clear op is flipped to undone. -/
def flipActive (userId : String) (now : Nat) (clearId : String)
    (op : Operation) : Operation :=
  if op.id != clearId && op.state == "active" then markUndone userId now op
  else op

/-- `clearOperations(userId)`: append a `clear` op, then flip every other
still-active op to undone, attributed to the actor. -/
def clearOperations (log : OperationLog) (userId : String) (now : Nat)
    (nonce : String) : Operation × OperationLog :=
  let cleared := (getActiveOperations log).length
  let res := addOperation log userId "clear" (OpData.clearData cleared now) now nonce
  let clearOp := res.1
  let log1 := res.2
  (clearOp,
   withOps log1 (log1.operations.map (flipActive userId now clearOp.id)))

/-- Return value of `mergeOperations`. -/
structure MergeOutcome where
  merged : Nat
  total : Nat
  deriving DecidableEq, Repr

/-- `mergeOperations(externalOperations)`: drop ops whose id is already
present, fold the new ops' clocks into the room clock, append, resort the
whole log causally, trim to the cap. -/
def mergeOperations (log : OperationLog) (external : List Operation) :
    MergeOutcome × OperationLog :=
  let existing := log.operations.map (fun op => op.id)
  let newOps := external.filter (fun op => !(existing.contains op.id))
  let vc := newOps.foldl (fun acc op =>
    match op.vectorClock with
    | some c => vcUpdate acc c
    | none => acc) log.vectorClock
  let ops := trimOperations (sortEvents (log.operations ++ newOps))
  ({ merged := newOps.length, total := ops.length },
   { log with operations := ops, vectorClock := vc })

/-- Return value of `getStats()`. -/
structure LogStats where
  total : Nat
  active : Nat
  undone : Nat
  strokes : Nat
  clears : Nat
  roomId : String
  createdAt : Nat
  age : Int
  deriving DecidableEq, Repr

/-- `getStats()`. -/
def getStats (log : OperationLog) (now : Nat) : LogStats :=
  { total := log.operations.length,
    active := (getActiveOperations log).length,
    undone := (log.operations.filter (fun op => op.state == "undone")).length,
    strokes := (log.operations.filter (fun op => op.type == "stroke")).length,
    clears := (log.operations.filter (fun op => op.type == "clear")).length,
    roomId := log.roomId,
    createdAt := log.createdAt,
    age := (now : Int) - log.createdAt }

/-- Return value of `getStateSnapshot()`. -/
structure Snapshot where
  operations : List Operation
  vectorClock : Clock
  stats : LogStats
  timestamp : Nat
  deriving DecidableEq, Repr

/-- `getStateSnapshot()`. -/
def getStateSnapshot (log : OperationLog) (now : Nat) : Snapshot :=
  { operations := log.operations,
    vectorClock := log.vectorClock,
    stats := getStats log now,
    timestamp := now }

/-- Return value of `export()`. -/
structure ExportData where
  roomId : String
  operations : List Operation
  vectorClock : Clock
  createdAt : Nat
  exportedAt : Nat
  deriving DecidableEq, Repr

/-- `export()`. -/
def exportLog (log : OperationLog) (now : Nat) : ExportData :=
  { roomId := log.roomId,
    operations := log.operations,
    vectorClock := log.vectorClock,
    createdAt := log.createdAt,
    exportedAt := now }

/-- `import(data)`: throws on a room id mismatch; otherwise replaces the
log's contents. `data.createdAt || Date.now()` falls back to the wall clock
when the imported `createdAt` is the falsy number 0; the array and object
fields coming from `export()` are always truthy, so no fallback applies. -/
def importLog (log : OperationLog) (data : ExportData) (now : Nat) :
    Except String OperationLog :=
  if data.roomId != log.roomId then
    Except.error "Room ID mismatch"
  else
    Except.ok
      { log with
        operations := data.operations,
        vectorClock := data.vectorClock,
        createdAt := if data.createdAt != 0 then data.createdAt else now }

/-- Whether an undo/redo result is the success variant. -/
def LogResult.isOk : LogResult → Bool
  | .ok _ => true
  | .err _ => false

theorem find_eq_some_of_mem {l : List Operation} {op : Operation} {opId : String}
    (hnd : (l.map (fun o => o.id)).Nodup) (hmem : op ∈ l) (hid : op.id = opId) :
    l.find? (fun o => o.id == opId) = some op := by
  induction l with
  | nil => cases hmem
  | cons x xs ih =>
    simp only [List.map_cons, List.nodup_cons] at hnd
    by_cases hx : x.id = opId
    · have : x = op := by
        rcases List.mem_cons.mp hmem with rfl | hmem2
        · rfl
        · exfalso
          apply hnd.1
          have hmm : op.id ∈ List.map (fun o => o.id) xs :=
            List.mem_map_of_mem (fun o => o.id) hmem2
          rw [hid, ← hx] at hmm
          exact hmm
      rw [this] at hx ⊢
      exact List.find?_cons_of_pos _ (by simpa using hx)
    · have hop : op ∈ xs := by
        rcases List.mem_cons.mp hmem with rfl | hmem2
        · exact absurd hid hx
        · exact hmem2
      rw [List.find?_cons_of_neg _ (by simpa using hx)]
      exact ih hnd.2 hop

theorem updateFirst_eq_map_of_nodup {l : List Operation} {opId : String}
    (f : Operation → Operation)
    (hnd : (l.map (fun o => o.id)).Nodup) :
    updateFirst (fun o => o.id == opId) f l
      = l.map (fun q => if q.id = opId then f q else q) := by
  induction l with
  | nil => rfl
  | cons x xs ih =>
    simp only [List.map_cons, List.nodup_cons] at hnd
    by_cases hx : x.id = opId
    · rw [updateFirst, if_pos (by simpa using hx), List.map_cons, if_pos hx]
      have hall : ∀ q ∈ xs, (if q.id = opId then f q else q) = q := by
        intro q hq
        rw [if_neg]
        intro hqid
        apply hnd.1
        have hmm : q.id ∈ List.map (fun o => o.id) xs :=
          List.mem_map_of_mem (fun o => o.id) hq
        rw [hqid, ← hx] at hmm
        exact hmm
      rw [List.map_congr_left hall, List.map_id']
    · rw [updateFirst, if_neg (by simpa using hx), List.map_cons, if_neg hx,
        ih hnd.2]

/-- Apply `f` to the operations carrying a given id, leave the rest. -/
def mapIfId (f : Operation → Operation) (opId : String)
    (l : List Operation) : List Operation :=
  l.map (fun q => if q.id = opId then f q else q)

/-- The operation list after a successful undo of `opId`: the (unique)
operation carrying that id is marked undone, everything else untouched. -/
def undoneAll (u : String) (now : Nat) (opId : String)
    (l : List Operation) : List Operation :=
  mapIfId (markUndone u now) opId l

/-- The operation list after a successful redo of `opId`. -/
def redoneAll (u : String) (now : Nat) (opId : String)
    (l : List Operation) : List Operation :=
  mapIfId (markRedone u now) opId l

theorem ids_mapIfId (f : Operation → Operation) (opId : String)
    (l : List Operation) (hf : ∀ q, (f q).id = q.id) :
    (mapIfId f opId l).map (fun o => o.id) = l.map (fun o => o.id) := by
  unfold mapIfId
  rw [List.map_map]
  apply List.map_congr_left
  intro q _
  by_cases h : q.id = opId <;> simp [h, hf]

theorem mem_mapIfId {f : Operation → Operation} {opId : String}
    {l : List Operation} {op : Operation}
    (hmem : op ∈ l) (hid : op.id = opId) : f op ∈ mapIfId f opId l := by
  unfold mapIfId
  have h2 : (if op.id = opId then f op else op)
      ∈ List.map (fun q => if q.id = opId then f q else q) l :=
    List.mem_map_of_mem (fun q => if q.id = opId then f q else q) hmem
  rwa [if_pos hid] at h2

theorem of_mem_mapIfId {f : Operation → Operation} {opId : String}
    {l : List Operation} {q : Operation}
    (hq : q ∈ mapIfId f opId l) (hid : q.id = opId) :
    ∃ p ∈ l, p.id = opId ∧ q = f p := by
  unfold mapIfId at hq
  obtain ⟨p, hp, hpq⟩ := List.mem_map.mp hq
  by_cases h : p.id = opId
  · exact ⟨p, hp, h, by rw [← hpq, if_pos h]⟩
  · rw [if_neg h] at hpq
    exact absurd (hpq ▸ hid) h

theorem undoOperation_not_found (log : OperationLog) (opId u : String) (now : Nat)
    (h : ∀ op ∈ log.operations, op.id ≠ opId) :
    undoOperation log opId u now = (LogResult.err "Operation not found", log) := by
  unfold undoOperation
  rw [List.find?_eq_none.mpr (fun op hop => by simpa using h op hop)]

theorem undoOperation_success_char {log : OperationLog} {opId : String}
    (u : String) (now : Nat) {op : Operation}
    (hnd : (log.operations.map (fun o => o.id)).Nodup)
    (hmem : op ∈ log.operations) (hid : op.id = opId)
    (hact : op.state = "active") :
    undoOperation log opId u now =
      (LogResult.ok (markUndone u now op),
       withOps log (undoneAll u now opId log.operations)) := by
  unfold undoOperation withOps undoneAll mapIfId
  rw [find_eq_some_of_mem hnd hmem hid]
  simp only [hact, bne_self_eq_false, Bool.false_eq_true, if_false,
    updateFirst_eq_map_of_nodup _ hnd]

theorem undoOperation_wrong_state {log : OperationLog} {opId : String}
    (u : String) (now : Nat) {op : Operation}
    (hfind : log.operations.find? (fun o => o.id == opId) = some op)
    (hst : op.state ≠ "active") :
    undoOperation log opId u now =
      (LogResult.err "Operation already undone", log) := by
  unfold undoOperation
  simp only [hfind]
  rw [if_pos (show (op.state != "active") = true by simpa [bne_iff_ne] using hst)]

theorem redoOperation_not_found {log : OperationLog} {opId u : String} {now : Nat}
    (h : ∀ op ∈ log.operations, op.id ≠ opId) :
    redoOperation log opId u now = (LogResult.err "Operation not found", log) := by
  unfold redoOperation
  rw [List.find?_eq_none.mpr (fun op hop => by simpa using h op hop)]

theorem redoOperation_success_char {log : OperationLog} {opId : String}
    (u : String) (now : Nat) {op : Operation}
    (hnd : (log.operations.map (fun o => o.id)).Nodup)
    (hmem : op ∈ log.operations) (hid : op.id = opId)
    (hund : op.state = "undone") :
    redoOperation log opId u now =
      (LogResult.ok (markRedone u now op),
       withOps log (redoneAll u now opId log.operations)) := by
  unfold redoOperation withOps redoneAll mapIfId
  rw [find_eq_some_of_mem hnd hmem hid]
  simp only [hund, bne_self_eq_false, Bool.false_eq_true, if_false,
    updateFirst_eq_map_of_nodup _ hnd]

theorem redoOperation_wrong_state {log : OperationLog} {opId u : String}
    {now : Nat} {op : Operation}
    (hfind : log.operations.find? (fun o => o.id == opId) = some op)
    (hst : op.state ≠ "undone") :
    redoOperation log opId u now =
      (LogResult.err "Operation is not undone", log) := by
  unfold redoOperation
  simp only [hfind]
  rw [if_pos (show (op.state != "undone") = true by simpa [bne_iff_ne] using hst)]

/-- C1. `undoOperation(id, user)` succeeds exactly when an operation with
that id is in the log in state `active`; success marks that operation
undone and records `undoneBy`/`undoneAt`; any failure is one of the two
structured errors and leaves the log unchanged; and an immediate second
undo of the same id fails while the state stays `undone`.  (Operation ids
are assumed unique in the log, the log's stated invariant.) -/
theorem c1_undoOperation_spec (log : OperationLog) (opId u u2 : String)
    (now now2 : Nat)
    (hnd : (log.operations.map (fun o => o.id)).Nodup) :
    ((undoOperation log opId u now).1.isOk = true ↔
      ∃ op ∈ log.operations, op.id = opId ∧ op.state = "active") ∧
    ((undoOperation log opId u now).1.isOk = true →
      (undoOperation log opId u now).2 =
        withOps log (undoneAll u now opId log.operations)) ∧
    (∀ e, (undoOperation log opId u now).1 = LogResult.err e →
      (e = "Operation not found" ∨ e = "Operation already undone") ∧
      (undoOperation log opId u now).2 = log) ∧
    ((undoOperation log opId u now).1.isOk = true →
      undoOperation (undoOperation log opId u now).2 opId u2 now2 =
        (LogResult.err "Operation already undone",
         (undoOperation log opId u now).2) ∧
      ∀ q ∈ (undoOperation log opId u now).2.operations,
        q.id = opId → q.state = "undone") := by
  cases hfind : log.operations.find? (fun o => o.id == opId) with
  | none =>
    have hnone : ∀ p ∈ log.operations, p.id ≠ opId := by
      intro p hp
      have := List.find?_eq_none.mp hfind p hp
      simpa using this
    have hres := undoOperation_not_found log opId u now hnone
    refine ⟨?_, ?_, ?_, ?_⟩
    · rw [hres]
      constructor
      · intro h; simp [LogResult.isOk] at h
      · rintro ⟨p, hp, hpid, -⟩; exact absurd hpid (hnone p hp)
    · rw [hres]; intro h; simp [LogResult.isOk] at h
    · intro e he
      rw [hres] at he ⊢
      refine ⟨Or.inl ?_, rfl⟩
      cases he; rfl
    · rw [hres]; intro h; simp [LogResult.isOk] at h
  | some op =>
    have hmem := List.mem_of_find?_eq_some hfind
    have hid : op.id = opId := by simpa using List.find?_some hfind
    by_cases hact : op.state = "active"
    · have hres := undoOperation_success_char u now hnd hmem hid hact
      have hids2 : ((withOps log (undoneAll u now opId log.operations)).operations.map
          (fun o => o.id)).Nodup := by
        show ((undoneAll u now opId log.operations).map (fun o => o.id)).Nodup
        unfold undoneAll
        rw [ids_mapIfId (markUndone u now) opId log.operations (fun q => rfl)]
        exact hnd
      have hmem2 : markUndone u now op
          ∈ (withOps log (undoneAll u now opId log.operations)).operations :=
        mem_mapIfId hmem hid
      have hfind2 := find_eq_some_of_mem hids2 hmem2 hid
      refine ⟨?_, ?_, ?_, ?_⟩
      · rw [hres]
        exact ⟨fun _ => ⟨op, hmem, hid, hact⟩, fun _ => rfl⟩
      · rw [hres]; intro _; rfl
      · rw [hres]; intro e he; cases he
      · rw [hres]
        intro _
        constructor
        · exact undoOperation_wrong_state u2 now2 hfind2 (by simp [markUndone])
        · intro q hq hqid
          obtain ⟨p, -, -, hqp⟩ := of_mem_mapIfId hq hqid
          rw [hqp]; rfl
    · have hres := undoOperation_wrong_state u now hfind hact
      refine ⟨?_, ?_, ?_, ?_⟩
      · rw [hres]
        constructor
        · intro h; simp [LogResult.isOk] at h
        · rintro ⟨p, hp, hpid, hpact⟩
          have hpo : p = op := by
            have h2 := find_eq_some_of_mem hnd hp hpid
            rw [hfind] at h2
            exact (Option.some.injEq _ _ ▸ h2).symm
          rw [hpo] at hpact
          exact absurd hpact hact
      · rw [hres]; intro h; simp [LogResult.isOk] at h
      · intro e he
        rw [hres] at he ⊢
        refine ⟨Or.inr ?_, rfl⟩
        cases he; rfl
      · rw [hres]; intro h; simp [LogResult.isOk] at h

/-- A concrete active stroke operation, used by witnesses. -/
def sampleOp : Operation where
  id := "x"
  type := "stroke"
  data := OpData.strokeData "s"
  userId := "u"
  state := "active"
  vectorClock := some [("u", 1)]
  timestamp := 1
  roomId := "r"

/-- A concrete one-operation log, used by witnesses. -/
def sampleLog : OperationLog where
  roomId := "r"
  operations := [sampleOp]
  vectorClock := [("u", 1)]
  createdAt := 3

/-- Witness for C1: on a concrete one-operation log the undo succeeds. -/
theorem c1_undoOperation_spec_witness :
    (undoOperation sampleLog "x" "u" 5).1.isOk = true :=
  ((c1_undoOperation_spec sampleLog "x" "u" "v" 5 6 (by decide)).1).mpr
    ⟨sampleOp, List.mem_singleton.mpr rfl, rfl, rfl⟩

theorem eq_of_mem_of_id {l : List Operation} {p q : Operation}
    (hnd : (l.map (fun o => o.id)).Nodup)
    (hp : p ∈ l) (hq : q ∈ l) (h : p.id = q.id) : p = q := by
  have h1 := find_eq_some_of_mem hnd hp h
  have h2 := find_eq_some_of_mem hnd hq rfl
  rw [h1] at h2
  exact Option.some.injEq _ _ ▸ h2

/-- C7. After a successful undo of an active operation, a redo of the same
id succeeds, returns the state to `active` recording `redoneBy`/`redoneAt`,
the log's (id, state) sequence is back to the original, and a further redo
fails without changing anything. -/
theorem c7_undo_redo_round_trip (log : OperationLog) (opId u u2 u3 : String)
    (now now2 now3 : Nat) (op : Operation)
    (hnd : (log.operations.map (fun o => o.id)).Nodup)
    (hmem : op ∈ log.operations) (hid : op.id = opId)
    (hact : op.state = "active") :
    (undoOperation log opId u now).1 = LogResult.ok (markUndone u now op) ∧
    (redoOperation (undoOperation log opId u now).2 opId u2 now2).1 =
      LogResult.ok (markRedone u2 now2 (markUndone u now op)) ∧
    (∀ q ∈ (redoOperation (undoOperation log opId u now).2 opId u2 now2).2.operations,
      q.id = opId →
        q.state = "active" ∧ q.redoneBy = some u2 ∧ q.redoneAt = some now2) ∧
    ((redoOperation (undoOperation log opId u now).2 opId u2 now2).2.operations.map
        (fun q => (q.id, q.state))
      = log.operations.map (fun q => (q.id, q.state))) ∧
    redoOperation
        (redoOperation (undoOperation log opId u now).2 opId u2 now2).2 opId u3 now3 =
      (LogResult.err "Operation is not undone",
       (redoOperation (undoOperation log opId u now).2 opId u2 now2).2) := by
  have hres := undoOperation_success_char u now hnd hmem hid hact
  have hids1 : ((withOps log (undoneAll u now opId log.operations)).operations.map
      (fun o => o.id)).Nodup := by
    show ((undoneAll u now opId log.operations).map (fun o => o.id)).Nodup
    unfold undoneAll
    rw [ids_mapIfId (markUndone u now) opId log.operations (fun q => rfl)]
    exact hnd
  have hmem1 : markUndone u now op
      ∈ (withOps log (undoneAll u now opId log.operations)).operations :=
    mem_mapIfId hmem hid
  have hres2 := redoOperation_success_char u2 now2 hids1 hmem1 hid
    (show (markUndone u now op).state = "undone" from rfl)
  have hids2 : ((withOps (withOps log (undoneAll u now opId log.operations))
      (redoneAll u2 now2 opId
        (withOps log (undoneAll u now opId log.operations)).operations)).operations.map
      (fun o => o.id)).Nodup := by
    show ((redoneAll u2 now2 opId
      (undoneAll u now opId log.operations)).map (fun o => o.id)).Nodup
    unfold redoneAll
    rw [ids_mapIfId (markRedone u2 now2) opId _ (fun q => rfl)]
    exact hids1
  have hmem2 : markRedone u2 now2 (markUndone u now op)
      ∈ (withOps (withOps log (undoneAll u now opId log.operations))
          (redoneAll u2 now2 opId
            (withOps log (undoneAll u now opId log.operations)).operations)).operations :=
    mem_mapIfId hmem1 hid
  refine ⟨by rw [hres], ?_, ?_, ?_, ?_⟩
  · rw [hres, hres2]
  · rw [hres, hres2]
    intro q hq hqid
    obtain ⟨p, -, -, hqp⟩ := of_mem_mapIfId hq hqid
    rw [hqp]
    exact ⟨rfl, rfl, rfl⟩
  · rw [hres, hres2]
    show ((redoneAll u2 now2 opId (undoneAll u now opId log.operations)).map
      (fun q => (q.id, q.state))) = _
    unfold redoneAll undoneAll mapIfId
    rw [List.map_map, List.map_map]
    apply List.map_congr_left
    intro q hq
    by_cases h : q.id = opId
    · have hqop : q = op := eq_of_mem_of_id hnd hq hmem (h.trans hid.symm)
      simp only [Function.comp]
      rw [if_pos h, if_pos (show (markUndone u now q).id = opId from h)]
      rw [hqop, hact]
      rfl
    · simp only [Function.comp, if_neg h]
  · rw [hres, hres2]
    have hfind2 := find_eq_some_of_mem hids2 hmem2 hid
    exact redoOperation_wrong_state hfind2 (by simp [markRedone])

/-- Witness for C7 on the concrete one-operation log. -/
theorem c7_undo_redo_round_trip_witness :
    (undoOperation sampleLog "x" "u" 5).1 =
      LogResult.ok (markUndone "u" 5 sampleOp) :=
  (c7_undo_redo_round_trip sampleLog "x" "u" "v" "w" 5 6 7 sampleOp
    (by decide) (List.mem_singleton.mpr rfl) rfl rfl).1

theorem trimOperations_append_single (l : List Operation) (x : Operation) :
    ∃ k, k ≤ l.length ∧ trimOperations (l ++ [x]) = l.drop k ++ [x] ∧
      (l.length < maxOperations → k = 0) := by
  unfold trimOperations
  by_cases h : (l ++ [x]).length > maxOperations
  · rw [List.length_append, List.length_singleton] at h
    have hmax : 0 < maxOperations := by unfold maxOperations; omega
    refine ⟨l.length + 1 - maxOperations, by omega, ?_, by omega⟩
    rw [if_pos (by rw [List.length_append, List.length_singleton]; exact h)]
    rw [List.length_append, List.length_singleton]
    rw [List.drop_append_eq_append_drop]
    congr 1
    have : l.length + 1 - maxOperations - l.length = 0 := by omega
    rw [this, List.drop_zero]
  · exact ⟨0, Nat.zero_le _, by rw [if_neg h, List.drop_zero], fun _ => rfl⟩

/-- C2. `clearOperations(userId)` appends one active `clear` operation;
every other operation that was `active` is flipped to `undone` attributed
to the actor, previously undone operations are untouched, and the active
set afterwards is exactly the singleton of the new clear op (the flip
enumeration is stated below the cap, where no trim interferes; the
singleton holds for every log).  Freshness of the generated id is the
log's id-uniqueness invariant. -/
theorem c2_clearOperations_spec (log : OperationLog) (u : String) (now : Nat)
    (nonce : String)
    (hfresh : generateOperationId u now nonce ∉
      log.operations.map (fun o => o.id)) :
    (clearOperations log u now nonce).1.type = "clear" ∧
    (clearOperations log u now nonce).1.state = "active" ∧
    getActiveOperations (clearOperations log u now nonce).2
      = [(clearOperations log u now nonce).1] ∧
    (log.operations.length < maxOperations →
      (clearOperations log u now nonce).2.operations
        = log.operations.map
            (fun q => if q.state = "active" then markUndone u now q else q)
          ++ [(clearOperations log u now nonce).1]) := by
  obtain ⟨k, hk, htrim, hk0⟩ :=
    trimOperations_append_single log.operations
      (clearOperations log u now nonce).1
  have hid : (clearOperations log u now nonce).1.id
      = generateOperationId u now nonce := rfl
  have hops : (clearOperations log u now nonce).2.operations
      = (trimOperations (log.operations ++ [(clearOperations log u now nonce).1])).map
          (flipActive u now (clearOperations log u now nonce).1.id) := rfl
  have hne : ∀ q ∈ log.operations,
      q.id ≠ (clearOperations log u now nonce).1.id := by
    intro q hq hcontra
    apply hfresh
    rw [← hid, ← hcontra]
    exact List.mem_map_of_mem (fun o => o.id) hq
  have hflip : ∀ q ∈ log.operations,
      flipActive u now (clearOperations log u now nonce).1.id q
        = if q.state = "active" then markUndone u now q else q := by
    intro q hq
    unfold flipActive
    have h1 : (q.id != (clearOperations log u now nonce).1.id) = true := by
      simpa [bne_iff_ne] using hne q hq
    rw [h1]
    by_cases h2 : q.state = "active"
    · rw [if_pos (by simp [h2]), if_pos h2]
    · rw [if_neg (by simp [h2]), if_neg h2]
  refine ⟨rfl, rfl, ?_, ?_⟩
  · show ((clearOperations log u now nonce).2.operations).filter
      (fun op => op.state == "active") = _
    rw [hops, htrim, List.map_append, List.filter_append]
    have hleft : ((log.operations.drop k).map
        (flipActive u now (clearOperations log u now nonce).1.id)).filter
          (fun op => op.state == "active") = [] := by
      rw [List.filter_eq_nil_iff]
      intro a ha
      obtain ⟨q, hq, hqa⟩ := List.mem_map.mp ha
      have hql : q ∈ log.operations := List.drop_subset k log.operations hq
      rw [hflip q hql] at hqa
      by_cases h2 : q.state = "active"
      · rw [if_pos h2] at hqa
        rw [← hqa]
        simp [markUndone]
      · rw [if_neg h2] at hqa
        rw [← hqa]
        simpa using h2
    rw [hleft, List.nil_append]
    have hcl : flipActive u now (clearOperations log u now nonce).1.id
        (clearOperations log u now nonce).1
        = (clearOperations log u now nonce).1 := by
      unfold flipActive
      rw [if_neg (by simp)]
    rw [List.map_singleton, hcl]
    rfl
  · intro hlen
    rw [hops, htrim, hk0 hlen, List.drop_zero, List.map_append,
      List.map_singleton]
    congr 1
    · exact List.map_congr_left hflip
    · unfold flipActive
      rw [if_neg (by simp)]

/-- Witness for C2 on the concrete one-operation log. -/
theorem c2_clearOperations_spec_witness :
    getActiveOperations (clearOperations sampleLog "u" 9 "n").2
      = [(clearOperations sampleLog "u" 9 "n").1] :=
  (c2_clearOperations_spec sampleLog "u" 9 "n" (by decide)).2.2.1

/-- One call to `addOperation`, for reasoning about arbitrary call
sequences. -/
structure AddCall where
  userId : String
  ty : String
  data : OpData
  now : Nat
  nonce : String

/-- The log after one `addOperation` call. -/
def applyAdd (log : OperationLog) (c : AddCall) : OperationLog :=
  (addOperation log c.userId c.ty c.data c.now c.nonce).2

theorem addOperation_ops (log : OperationLog) (u ty : String) (d : OpData)
    (now : Nat) (nonce : String) :
    (addOperation log u ty d now nonce).2.operations
      = trimOperations
          (log.operations ++ [(addOperation log u ty d now nonce).1]) := rfl

theorem trimOperations_length (l : List Operation) :
    (trimOperations l).length
      = if l.length > maxOperations then maxOperations else l.length := by
  unfold trimOperations
  by_cases h : l.length > maxOperations
  · rw [if_pos h, if_pos h, List.length_drop]
    omega
  · rw [if_neg h, if_neg h]

theorem addOperation_length_le (log : OperationLog) (u ty : String)
    (d : OpData) (now : Nat) (nonce : String) :
    (addOperation log u ty d now nonce).2.operations.length ≤ maxOperations := by
  rw [addOperation_ops, trimOperations_length]
  split
  · exact Nat.le_refl _
  · next h =>
    rw [List.length_append, List.length_singleton] at h ⊢
    omega

theorem foldl_applyAdd_le (calls : List AddCall) (log : OperationLog)
    (h : log.operations.length ≤ maxOperations) :
    (calls.foldl applyAdd log).operations.length ≤ maxOperations := by
  induction calls generalizing log with
  | nil => exact h
  | cons c cs ih =>
    exact ih _ (addOperation_length_le log c.userId c.ty c.data c.now c.nonce)

/-- C4. The log length never exceeds `maxOperations` after any
`addOperation`, including over every sequence of calls from a fresh log;
appending while exactly at the cap removes exactly the oldest (front)
entry regardless of its state; and undoing the dropped front id afterwards
fails with the not-found error.  (Operation ids unique, fresh generated
id: the log's id invariant.) -/
theorem c4_addOperation_cap (log : OperationLog) (u ty : String) (d : OpData)
    (now : Nat) (nonce : String)
    (hnd : (log.operations.map (fun o => o.id)).Nodup)
    (hfresh : generateOperationId u now nonce ∉
      log.operations.map (fun o => o.id)) :
    (addOperation log u ty d now nonce).2.operations.length ≤ maxOperations ∧
    (∀ (calls : List AddCall) (rid : String) (now0 : Nat),
      (calls.foldl applyAdd (OperationLog.new rid now0)).operations.length
        ≤ maxOperations) ∧
    (log.operations.length = maxOperations →
      (addOperation log u ty d now nonce).2.operations
        = log.operations.drop 1 ++ [(addOperation log u ty d now nonce).1]) ∧
    (log.operations.length = maxOperations →
      ∀ front, log.operations.head? = some front →
      ∀ u2 now2,
        undoOperation (addOperation log u ty d now nonce).2 front.id u2 now2
          = (LogResult.err "Operation not found",
             (addOperation log u ty d now nonce).2)) := by
  have hcap : log.operations.length = maxOperations →
      (addOperation log u ty d now nonce).2.operations
        = log.operations.drop 1 ++ [(addOperation log u ty d now nonce).1] := by
    intro hlen
    rw [addOperation_ops]
    unfold trimOperations
    rw [List.length_append, List.length_singleton, hlen]
    rw [if_pos (by unfold maxOperations; omega)]
    have h1 : maxOperations + 1 - maxOperations = 1 := by omega
    rw [h1, List.drop_append_eq_append_drop]
    congr 1
    have h2 : 1 - log.operations.length = 0 := by
      rw [hlen]; unfold maxOperations; omega
    rw [h2, List.drop_zero]
  refine ⟨addOperation_length_le log u ty d now nonce, ?_, hcap, ?_⟩
  · intro calls rid now0
    exact foldl_applyAdd_le calls _ (by unfold OperationLog.new maxOperations; simp)
  · intro hlen front hhead u2 now2
    apply undoOperation_not_found
    intro p hp
    rw [hcap hlen] at hp
    cases hl : log.operations with
    | nil => rw [hl] at hhead; cases hhead
    | cons x t =>
      have hfx : front = x := by
        rw [hl] at hhead
        simpa using hhead.symm
      rcases List.mem_append.mp hp with hp1 | hp2
      · rw [hl, List.drop_one, List.tail_cons] at hp1
        rw [hl, List.map_cons, List.nodup_cons] at hnd
        intro heq
        apply hnd.1
        have hpm : p.id ∈ List.map (fun o => o.id) t :=
          List.mem_map_of_mem (fun o => o.id) hp1
        rw [heq, hfx] at hpm
        exact hpm
      · have hpnew : p = (addOperation log u ty d now nonce).1 := by
          simpa using hp2
        intro heq
        apply hfresh
        have hpid : p.id = generateOperationId u now nonce := by
          rw [hpnew]; rfl
        rw [← hpid, heq]
        have hfm : front ∈ log.operations := by
          rw [hl, hfx]; exact List.mem_cons_self x t
        exact List.mem_map_of_mem (fun o => o.id) hfm

/-- Distinct short ids for bulk concrete logs. -/
def natId (i : Nat) : String := String.mk (List.replicate i 'a')

theorem natId_injective : Function.Injective natId := by
  intro i j h
  have hlen : (natId i).length = (natId j).length := by rw [h]
  simpa [natId, String.length] using hlen

theorem natId_ne_u5n (i : Nat) : natId i ≠ "u_5_n" := by
  intro h
  have hlen : (natId i).length = 5 := by rw [h]; rfl
  have hi : i = 5 := by simpa [natId, String.length] using hlen
  rw [hi] at h
  exact absurd h (by decide)

/-- The i-th operation of the concrete at-cap log. -/
def capOp (i : Nat) : Operation where
  id := natId i
  type := "stroke"
  data := OpData.strokeData ""
  userId := "u"
  state := "active"
  vectorClock := none
  timestamp := i
  roomId := "r"

/-- A concrete log holding exactly `maxOperations` operations. -/
def capLog : OperationLog where
  roomId := "r"
  operations := (List.range maxOperations).map capOp
  vectorClock := []
  createdAt := 1

theorem capLog_ids_nodup : (capLog.operations.map (fun o => o.id)).Nodup := by
  show (((List.range maxOperations).map capOp).map (fun o => o.id)).Nodup
  rw [List.map_map]
  exact (List.nodup_range maxOperations).map natId_injective

theorem capLog_fresh : generateOperationId "u" 5 "n" ∉
    capLog.operations.map (fun o => o.id) := by
  intro h
  obtain ⟨op, hop, hid⟩ := List.mem_map.mp h
  obtain ⟨i, -, hop2⟩ := List.mem_map.mp hop
  rw [← hop2] at hid
  exact natId_ne_u5n i hid

theorem capLog_len : capLog.operations.length = maxOperations := by
  show ((List.range maxOperations).map capOp).length = maxOperations
  rw [List.length_map, List.length_range]

theorem capLog_head : capLog.operations.head? = some (capOp 0) := by
  show ((List.range maxOperations).map capOp).head? = some (capOp 0)
  rw [show maxOperations = 999 + 1 from rfl, List.range_succ_eq_map]
  rfl

/-- Witness for C4: on the concrete at-cap log, the front operation's id is
no longer undoable after one more append. -/
theorem c4_addOperation_cap_witness :
    undoOperation (addOperation capLog "u" "stroke" (OpData.strokeData "") 5 "n").2
        (natId 0) "v" 6
      = (LogResult.err "Operation not found",
         (addOperation capLog "u" "stroke" (OpData.strokeData "") 5 "n").2) :=
  (c4_addOperation_cap capLog "u" "stroke" (OpData.strokeData "") 5 "n"
    capLog_ids_nodup capLog_fresh).2.2.2 capLog_len (capOp 0) capLog_head "v" 6

/-- C10. `compare` with a null/undefined clock on either side returns 0,
and the `sortEvents` comparator orders any pair in which at least one event
lacks a `vectorClock` purely by the timestamp difference. -/
theorem c10_null_clock_concurrent (C : Clock) (a b : Operation) :
    vcCompareOpt none (some C) = 0 ∧
    vcCompareOpt (some C) none = 0 ∧
    vcCompareOpt none none = 0 ∧
    (a.vectorClock = none ∨ b.vectorClock = none →
      eventCompare a b = (a.timestamp : Int) - b.timestamp) := by
  refine ⟨rfl, rfl, rfl, ?_⟩
  intro h
  unfold eventCompare
  rcases h with h | h
  · rw [h]
  · rw [h]
    cases a.vectorClock <;> rfl

/-- Witness for C10: two concrete clockless events compare by timestamps. -/
theorem c10_null_clock_concurrent_witness :
    eventCompare (capOp 1) (capOp 2)
      = ((capOp 1).timestamp : Int) - (capOp 2).timestamp :=
  (c10_null_clock_concurrent [] (capOp 1) (capOp 2)).2.2.2 (Or.inl rfl)

/-- C9. `export()` followed by `import` into a fresh log with the same room
id restores the log exactly, so its snapshot has the same ordered operation
list, vector clock and `createdAt` as the original.  (`createdAt` must be
non-zero: `data.createdAt || Date.now()` would replace a 0, and real
`createdAt` values are `Date.now()` stamps.) -/
theorem c9_export_import_round_trip (L : OperationLog) (now1 now2 now3 : Nat)
    (h : 0 < L.createdAt) :
    importLog (OperationLog.new L.roomId now2) (exportLog L now1) now2
      = Except.ok L ∧
    (∀ L2, importLog (OperationLog.new L.roomId now2) (exportLog L now1) now2
        = Except.ok L2 →
      (getStateSnapshot L2 now3).operations = (getStateSnapshot L now3).operations ∧
      (getStateSnapshot L2 now3).vectorClock = (getStateSnapshot L now3).vectorClock ∧
      L2.createdAt = L.createdAt) := by
  have hok : importLog (OperationLog.new L.roomId now2) (exportLog L now1) now2
      = Except.ok L := by
    unfold importLog exportLog OperationLog.new
    rw [if_neg (by simp)]
    rw [if_pos (show (L.createdAt != 0) = true from
      bne_iff_ne.mpr (Nat.pos_iff_ne_zero.mp h))]
  refine ⟨hok, ?_⟩
  intro L2 hL2
  rw [hok] at hL2
  cases hL2
  exact ⟨rfl, rfl, rfl⟩

/-- Witness for C9 on the concrete one-operation log. -/
theorem c9_export_import_round_trip_witness :
    importLog (OperationLog.new sampleLog.roomId 7) (exportLog sampleLog 6) 7
      = Except.ok sampleLog :=
  (c9_export_import_round_trip sampleLog 6 7 8 (by decide)).1

theorem eventCompare_antisymm (a b : Operation) :
    eventCompare b a = -(eventCompare a b) := by
  unfold eventCompare
  cases a.vectorClock with
  | none => cases b.vectorClock <;> simp
  | some ca =>
    cases b.vectorClock with
    | none => simp
    | some cb =>
      show (if vcCompare cb ca ≠ 0 then vcCompare cb ca
            else (b.timestamp : Int) - a.timestamp)
        = -(if vcCompare ca cb ≠ 0 then vcCompare ca cb
            else (a.timestamp : Int) - b.timestamp)
      rw [vcCompare_antisymm cb ca]
      by_cases h : vcCompare ca cb = 0
      · rw [h]
        simp
      · rw [if_pos (neg_ne_zero.mpr h), if_pos h]

theorem chain'_sortInsert {l : List Operation} {x : Operation}
    (h : List.Chain' (fun a b => eventCompare a b ≤ 0) l) :
    List.Chain' (fun a b => eventCompare a b ≤ 0) (sortInsert x l) := by
  induction l with
  | nil => simp [sortInsert]
  | cons y ys ih =>
    rw [sortInsert]
    by_cases hxy : eventCompare x y ≤ 0
    · rw [if_pos hxy]
      exact List.Chain'.cons hxy h
    · rw [if_neg hxy]
      have hins := ih h.tail
      rw [List.chain'_cons']
      refine ⟨?_, hins⟩
      intro z hz
      cases ys with
      | nil =>
        simp only [sortInsert, List.head?_cons, Option.mem_def,
          Option.some.injEq] at hz
        rw [← hz, eventCompare_antisymm]
        omega
      | cons w ws =>
        rw [sortInsert] at hz
        by_cases hxw : eventCompare x w ≤ 0
        · rw [if_pos hxw] at hz
          simp only [List.head?_cons, Option.mem_def, Option.some.injEq] at hz
          rw [← hz, eventCompare_antisymm]
          omega
        · rw [if_neg hxw] at hz
          simp only [List.head?_cons, Option.mem_def, Option.some.injEq] at hz
          rw [← hz]
          exact (List.chain'_cons.mp h).1

theorem chain'_sortEvents (l : List Operation) :
    List.Chain' (fun a b => eventCompare a b ≤ 0) (sortEvents l) := by
  induction l with
  | nil => simp [sortEvents]
  | cons x xs ih => exact chain'_sortInsert ih

theorem sortEvents_of_chain' {l : List Operation}
    (h : List.Chain' (fun a b => eventCompare a b ≤ 0) l) :
    sortEvents l = l := by
  induction l with
  | nil => rfl
  | cons x xs ih =>
    rw [sortEvents, ih h.tail]
    cases xs with
    | nil => rfl
    | cons y ys =>
      rw [sortInsert, if_pos (List.chain'_cons.mp h).1]

theorem sortEvents_idem (l : List Operation) :
    sortEvents (sortEvents l) = sortEvents l :=
  sortEvents_of_chain' (chain'_sortEvents l)

theorem length_sortInsert (x : Operation) (l : List Operation) :
    (sortInsert x l).length = l.length + 1 := by
  induction l with
  | nil => rfl
  | cons y ys ih =>
    rw [sortInsert]
    by_cases h : eventCompare x y ≤ 0
    · rw [if_pos h]; rfl
    · rw [if_neg h, List.length_cons, ih, List.length_cons]

theorem length_sortEvents (l : List Operation) :
    (sortEvents l).length = l.length := by
  induction l with
  | nil => rfl
  | cons x xs ih =>
    rw [sortEvents, length_sortInsert, ih]
    rfl

theorem mem_sortInsert {y x : Operation} {l : List Operation} :
    y ∈ sortInsert x l ↔ y = x ∨ y ∈ l := by
  induction l with
  | nil => simp [sortInsert]
  | cons z zs ih =>
    rw [sortInsert]
    by_cases h : eventCompare x z ≤ 0
    · rw [if_pos h]
      simp
    · rw [if_neg h]
      simp only [List.mem_cons, ih]
      tauto

theorem mem_sortEvents {y : Operation} {l : List Operation} :
    y ∈ sortEvents l ↔ y ∈ l := by
  induction l with
  | nil => simp [sortEvents]
  | cons x xs ih =>
    rw [sortEvents, mem_sortInsert, ih, List.mem_cons]

theorem trimOperations_eq_self {l : List Operation}
    (h : l.length ≤ maxOperations) : trimOperations l = l := by
  unfold trimOperations
  rw [if_neg (by omega)]

theorem logFieldsEq {a b : OperationLog} (h1 : a.roomId = b.roomId)
    (h2 : a.operations = b.operations) (h3 : a.vectorClock = b.vectorClock)
    (h4 : a.createdAt = b.createdAt) : a = b := by
  cases a; cases b; simp_all

/-- The deduplication step of `mergeOperations`: external ops whose id is
not already present in the log. -/
def mergeFilter (log : OperationLog) (ops : List Operation) : List Operation :=
  ops.filter (fun op => !((log.operations.map (fun op => op.id)).contains op.id))

theorem mergeOperations_merged_eq (log : OperationLog) (ops : List Operation) :
    (mergeOperations log ops).1.merged = (mergeFilter log ops).length := rfl

theorem mergeOperations_ops_eq (log : OperationLog) (ops : List Operation) :
    (mergeOperations log ops).2.operations
      = trimOperations (sortEvents (log.operations ++ mergeFilter log ops)) := rfl

theorem mergeOperations_vc_eq (log : OperationLog) (ops : List Operation) :
    (mergeOperations log ops).2.vectorClock
      = (mergeFilter log ops).foldl
          (fun acc op => match op.vectorClock with
            | some c => vcUpdate acc c
            | none => acc) log.vectorClock := rfl

theorem mergeOperations_roomId_eq (log : OperationLog) (ops : List Operation) :
    (mergeOperations log ops).2.roomId = log.roomId := rfl

theorem mergeOperations_createdAt_eq (log : OperationLog) (ops : List Operation) :
    (mergeOperations log ops).2.createdAt = log.createdAt := rfl

/-- C6 (amended). When the log plus the external list fits under the cap —
so the first call's trim cannot drop a newly merged operation — merging the
same list twice is idempotent: the second call merges 0 operations and
returns the log of the first call unchanged, sequence and clock included.
(At the cap the second call re-merges what the trim dropped; see the
counterexample.) -/
theorem c6_mergeOperations_idem (log : OperationLog) (ops : List Operation)
    (hlen : log.operations.length + ops.length ≤ maxOperations) :
    (mergeOperations (mergeOperations log ops).2 ops).1.merged = 0 ∧
    (mergeOperations (mergeOperations log ops).2 ops).2
      = (mergeOperations log ops).2 := by
  have hflen : (mergeFilter log ops).length ≤ ops.length :=
    List.length_filter_le _ _
  have hlen1 : (sortEvents (log.operations ++ mergeFilter log ops)).length
      ≤ maxOperations := by
    rw [length_sortEvents, List.length_append]
    omega
  have hops1 : (mergeOperations log ops).2.operations
      = sortEvents (log.operations ++ mergeFilter log ops) := by
    rw [mergeOperations_ops_eq, trimOperations_eq_self hlen1]
  have hkey : ∀ op ∈ ops,
      op.id ∈ (mergeOperations log ops).2.operations.map (fun o => o.id) := by
    intro op hop
    rw [hops1]
    by_cases hc : op.id ∈ log.operations.map (fun o => o.id)
    · obtain ⟨q, hq, hqid⟩ := List.mem_map.mp hc
      exact List.mem_map.mpr
        ⟨q, mem_sortEvents.mpr (List.mem_append.mpr (Or.inl hq)), hqid⟩
    · have hm : op ∈ mergeFilter log ops := by
        unfold mergeFilter
        rw [List.mem_filter]
        refine ⟨hop, ?_⟩
        rw [Bool.not_eq_true']
        rw [← Bool.not_eq_true]
        intro hcontra
        exact hc (List.elem_iff.mp hcontra)
      exact List.mem_map.mpr
        ⟨op, mem_sortEvents.mpr (List.mem_append.mpr (Or.inr hm)), rfl⟩
  have hfilter2 : mergeFilter (mergeOperations log ops).2 ops = [] := by
    unfold mergeFilter
    rw [List.filter_eq_nil_iff]
    intro op hop
    rw [Bool.not_eq_true, Bool.not_eq_false']
    exact List.elem_iff.mpr (hkey op hop)
  refine ⟨?_, ?_⟩
  · rw [mergeOperations_merged_eq, hfilter2]
    rfl
  · apply logFieldsEq
    · rw [mergeOperations_roomId_eq]
    · rw [mergeOperations_ops_eq, hfilter2, List.append_nil, hops1,
        sortEvents_idem]
      exact trimOperations_eq_self hlen1
    · rw [mergeOperations_vc_eq, hfilter2]
      rfl
    · rw [mergeOperations_createdAt_eq]

/-- Witness for C6 (amended) on a small concrete log and list. -/
theorem c6_mergeOperations_idem_witness :
    (mergeOperations (mergeOperations sampleLog [sampleOp]).2 [sampleOp]).1.merged
      = 0 :=
  (c6_mergeOperations_idem sampleLog [sampleOp] (by decide)).1

/-- A concrete external list one longer than the cap: distinct ids, no
vector clocks, strictly increasing timestamps. -/
def extOps : List Operation := (List.range (maxOperations + 1)).map capOp

theorem extOps_eq_cons :
    extOps = capOp 0 :: (List.range maxOperations).map (fun i => capOp (i + 1)) := by
  unfold extOps
  rw [show maxOperations + 1 = Nat.succ maxOperations from rfl,
    List.range_succ_eq_map, List.map_cons, List.map_map]
  rfl

theorem extOps_chain :
    List.Chain' (fun a b => eventCompare a b ≤ 0) extOps := by
  unfold extOps
  rw [List.chain'_map]
  rw [show maxOperations + 1 = Nat.succ maxOperations from rfl,
    List.chain'_range_succ]
  intro m hm
  show eventCompare (capOp m) (capOp (m + 1)) ≤ 0
  show ((m : Int) - (m + 1 : Nat)) ≤ 0
  push_cast
  omega

theorem extOps_len : extOps.length = maxOperations + 1 := by
  unfold extOps
  rw [List.length_map, List.length_range]

theorem merge1_ops :
    (mergeOperations (OperationLog.new "m" 0) extOps).2.operations
      = (List.range maxOperations).map (fun i => capOp (i + 1)) := by
  rw [mergeOperations_ops_eq]
  have h1 : mergeFilter (OperationLog.new "m" 0) extOps = extOps :=
    List.filter_eq_self.mpr (fun a _ => rfl)
  rw [h1]
  rw [show (OperationLog.new "m" 0).operations = [] from rfl, List.nil_append]
  rw [sortEvents_of_chain' extOps_chain]
  unfold trimOperations
  rw [extOps_len]
  rw [if_pos (by omega)]
  rw [show maxOperations + 1 - maxOperations = 1 from by omega]
  rw [extOps_eq_cons]
  rfl

theorem merge1_ids :
    (mergeOperations (OperationLog.new "m" 0) extOps).2.operations.map
        (fun op => op.id)
      = (List.range maxOperations).map (fun i => natId (i + 1)) := by
  rw [merge1_ops, List.map_map]
  rfl

/-- C6 counterexample: with an empty log and 1001 fresh external operations,
the first merge trims away the causally-first op, so the second merge with
the same list merges 1 operation, not 0 — the claim's universally quantified
idempotence fails at the cap. -/
theorem c6_counterexample_at_cap :
    (mergeOperations (mergeOperations (OperationLog.new "m" 0) extOps).2
        extOps).1.merged = 1 ∧
    ¬ (mergeOperations (mergeOperations (OperationLog.new "m" 0) extOps).2
        extOps).1.merged = 0 := by
  have hc0 : ((mergeOperations (OperationLog.new "m" 0) extOps).2.operations.map
      (fun op => op.id)).contains (capOp 0).id = false := by
    rw [merge1_ids]
    rw [← Bool.not_eq_true]
    intro hcontra
    obtain ⟨i, -, heq⟩ := List.mem_map.mp (List.elem_iff.mp hcontra)
    exact absurd (natId_injective heq) (by omega)
  have hrest : List.filter
      (fun op => !(((mergeOperations (OperationLog.new "m" 0) extOps).2.operations.map
        (fun op => op.id)).contains op.id))
      ((List.range maxOperations).map (fun i => capOp (i + 1))) = [] := by
    rw [List.filter_eq_nil_iff]
    intro op hop
    obtain ⟨i, hi, hopi⟩ := List.mem_map.mp hop
    rw [Bool.not_eq_true, Bool.not_eq_false']
    rw [merge1_ids]
    apply List.elem_iff.mpr
    refine List.mem_map.mpr ⟨i, hi, ?_⟩
    rw [← hopi]
    rfl
  have hfilter : mergeFilter (mergeOperations (OperationLog.new "m" 0) extOps).2
      extOps = [capOp 0] := by
    unfold mergeFilter
    nth_rewrite 2 [extOps_eq_cons]
    rw [List.filter_cons_of_pos (by rw [hc0]; rfl)]
    rw [hrest]
  have hmerged : (mergeOperations (mergeOperations (OperationLog.new "m" 0) extOps).2
      extOps).1.merged = 1 := by
    rw [mergeOperations_merged_eq, hfilter]
    rfl
  exact ⟨hmerged, by rw [hmerged]; omega⟩

/-- A user session (the object `joinRoom` builds). -/
structure User where
  id : String
  socketId : String
  name : String
  color : String
  roomId : String
  joinedAt : Nat
  lastActivity : Nat
  deriving DecidableEq, Repr

/-- One room: membership map (userId → User, in insertion order, like a JS
`Map`), its operation log and activity timestamps. -/
structure Room where
  id : String
  users : List (String × User)
  operationLog : OperationLog
  createdAt : Nat
  lastActivity : Nat
  deriving DecidableEq, Repr

/-- The `RoomManager` state: the room directory and the global session map
(socketId → User). -/
structure RoomManager where
  rooms : List (String × Room)
  users : List (String × User)
  deriving DecidableEq, Repr

/-- `this.maxUsersPerRoom = 20`. -/
def maxUsersPerRoom : Nat := 20

/-- `CONFIG.USER_COLORS` from `shared/constants.js`. -/
def USER_COLORS : List String :=
  ["#FF6B6B", "#4ECDC4", "#45B7D1", "#FFA07A",
   "#98D8C8", "#F7DC6F", "#BB8FCE", "#85C1E2",
   "#F8B739", "#52B788"]

/-- JS `Map.get`. -/
def mapGet {α : Type} (m : List (String × α)) (k : String) : Option α :=
  (m.find? (fun p => p.1 == k)).map Prod.snd

/-- JS `Map.set`: overwrite in place when the key is present (keeping its
position), otherwise append. -/
def mapSet {α : Type} (m : List (String × α)) (k : String) (v : α) :
    List (String × α) :=
  if m.any (fun p => p.1 == k) then
    m.map (fun p => if p.1 == k then (k, v) else p)
  else
    m ++ [(k, v)]

/-- JS `Map.delete`. -/
def mapDelete {α : Type} (m : List (String × α)) (k : String) :
    List (String × α) :=
  m.filter (fun p => !(p.1 == k))

/-- `createRoom(roomId)`: return the existing room or create a fresh one. -/
def createRoom (m : RoomManager) (roomId : String) (now : Nat) :
    Room × RoomManager :=
  match mapGet m.rooms roomId with
  | some room => (room, m)
  | none =>
    let room : Room :=
      { id := roomId, users := [], operationLog := OperationLog.new roomId now,
        createdAt := now, lastActivity := now }
    (room, { m with rooms := mapSet m.rooms roomId room })

/-- `getRoom(roomId)`: get or lazily create. -/
def getRoom (m : RoomManager) (roomId : String) (now : Nat) :
    Room × RoomManager :=
  match mapGet m.rooms roomId with
  | none => createRoom m roomId now
  | some room => (room, m)

/-- `assignColor(room)`: the first palette colour not used by a member;
when all are taken, the random hsl colour (passed in as `rand`). -/
def assignColor (room : Room) (rand : String) : String :=
  let used := room.users.map (fun p => p.2.color)
  match USER_COLORS.find? (fun c => !(used.contains c)) with
  | some c => c
  | none => rand

/-- The public shape of a member in `getRoomInfo`. -/
structure PublicUser where
  id : String
  name : String
  color : String
  deriving DecidableEq, Repr

/-- Return value of `getRoomInfo(room)`. -/
structure RoomInfo where
  id : String
  userCount : Nat
  users : List PublicUser
  stats : LogStats
  deriving DecidableEq, Repr

/-- `getRoomInfo(room)`. -/
def getRoomInfo (room : Room) (now : Nat) : RoomInfo :=
  { id := room.id,
    userCount := room.users.length,
    users := room.users.map (fun p =>
      { id := p.2.id, name := p.2.name, color := p.2.color }),
    stats := getStats room.operationLog now }

/-- Ack shape of `joinRoom`. -/
inductive JoinResult where
  | ok (user : User) (room : RoomInfo)
  | err (error : String)
  deriving DecidableEq, Repr

/-- Whether a join result is the success variant. -/
def JoinResult.isOk : JoinResult → Bool
  | .ok _ _ => true
  | .err _ => false

/-- The user object `joinRoom` builds on success.  The generated user id,
the generated whimsical name and the random fallback colour are
parameters. -/
def joinUser (m : RoomManager) (socketId roomId : String)
    (username : Option String) (newUserId genName randColor : String)
    (now : Nat) : User :=
  { id := newUserId, socketId := socketId,
    name := username.getD genName,
    color := assignColor (getRoom m roomId now).1 randColor,
    roomId := roomId, joinedAt := now, lastActivity := now }

/-- The room after `joinRoom`'s mutations: the new member inserted and
`lastActivity` bumped. -/
def joinedRoom (m : RoomManager) (socketId roomId : String)
    (username : Option String) (newUserId genName randColor : String)
    (now : Nat) : Room :=
  { (getRoom m roomId now).1 with
    users := mapSet (getRoom m roomId now).1.users newUserId
      (joinUser m socketId roomId username newUserId genName randColor now),
    lastActivity := now }

/-- The manager after a successful `joinRoom`: the session indexed in both
the room and the global session map. -/
def joinedMgr (m : RoomManager) (socketId roomId : String)
    (username : Option String) (newUserId genName randColor : String)
    (now : Nat) : RoomManager :=
  { rooms := mapSet (getRoom m roomId now).2.rooms roomId
      (joinedRoom m socketId roomId username newUserId genName randColor now),
    users := mapSet (getRoom m roomId now).2.users socketId
      (joinUser m socketId roomId username newUserId genName randColor now) }

/-- `joinRoom(socketId, roomId, username)`: lazily create the room, reject
with `Room is full` at capacity, otherwise build the user and index the
session in both the room and the global map. -/
def joinRoom (m : RoomManager) (socketId roomId : String)
    (username : Option String) (newUserId genName randColor : String)
    (now : Nat) : JoinResult × RoomManager :=
  if (getRoom m roomId now).1.users.length ≥ maxUsersPerRoom then
    (JoinResult.err "Room is full", (getRoom m roomId now).2)
  else
    (JoinResult.ok
      (joinUser m socketId roomId username newUserId genName randColor now)
      (getRoomInfo
        (joinedRoom m socketId roomId username newUserId genName randColor now)
        now),
     joinedMgr m socketId roomId username newUserId genName randColor now)

/-- `leaveRoom(socketId)`: remove the session from both indices.  (The
scheduled empty-room cleanup is a separate timer firing, `cleanupRoom`.) -/
def leaveRoom (m : RoomManager) (socketId : String) (now : Nat) :
    Option (User × RoomInfo) × RoomManager :=
  match mapGet m.users socketId with
  | none => (none, m)
  | some user =>
    match mapGet m.rooms user.roomId with
    | none => (none, m)
    | some room =>
      let room2 := { room with users := mapDelete room.users user.id }
      let m2 := { m with rooms := mapSet m.rooms user.roomId room2,
                         users := mapDelete m.users socketId }
      (some (user, getRoomInfo room2 now), m2)

/-- `updateActivity(socketId)`.  The JS code mutates the shared user object
and bumps the room; the value model refreshes the session in both indices
(the room copy only when the room actually holds that session, which is
when the JS alias would be visible). -/
def updateActivity (m : RoomManager) (socketId : String) (now : Nat) :
    RoomManager :=
  match mapGet m.users socketId with
  | none => m
  | some user =>
    let user2 := { user with lastActivity := now }
    let m1 := { m with users := mapSet m.users socketId user2 }
    match mapGet m1.rooms user.roomId with
    | none => m1
    | some room =>
      let room2 :=
        { room with
          users := if room.users.any (fun p => p.1 == user.id)
                   then mapSet room.users user.id user2 else room.users,
          lastActivity := now }
      { m1 with rooms := mapSet m1.rooms user.roomId room2 }

/-- The `scheduleRoomCleanup` timer firing: delete the room only when it
still exists, is empty, and has been inactive past the 60 s grace. -/
def cleanupRoom (m : RoomManager) (roomId : String) (now : Nat) :
    RoomManager :=
  match mapGet m.rooms roomId with
  | none => m
  | some room =>
    if room.users.length = 0 ∧ (now : Int) - room.lastActivity > 60000 then
      { m with rooms := mapDelete m.rooms roomId }
    else m

/-- One pass of the `startCleanupTimer` reaper: delete every room that is
empty and idle over 5 minutes, or idle over 1 hour regardless of
membership. -/
def reapRooms (m : RoomManager) (now : Nat) : RoomManager :=
  { m with rooms := m.rooms.filter (fun p =>
      !((decide (p.2.users.length = 0) &&
         decide ((now : Int) - p.2.lastActivity > 300000))
        || decide ((now : Int) - p.2.lastActivity > 3600000))) }

/-- The `RoomManager` constructor state. -/
def RoomManager.new : RoomManager := { rooms := [], users := [] }

theorem mapGet_mapSet_self {α : Type} (m : List (String × α)) (k : String)
    (v : α) : mapGet (mapSet m k v) k = some v := by
  unfold mapGet mapSet
  by_cases h : m.any (fun p => p.1 == k)
  · rw [if_pos h]
    induction m with
    | nil => simp at h
    | cons p rest ih =>
      by_cases hp : p.1 = k
      · rw [List.map_cons, if_pos (by simpa using hp)]
        rw [List.find?_cons_of_pos _ (by simp)]
        rfl
      · rw [List.map_cons, if_neg (by simpa using hp)]
        rw [List.find?_cons_of_neg _ (by simpa using hp)]
        apply ih
        rw [List.any_cons] at h
        rcases Bool.or_eq_true_iff.mp h with h1 | h1
        · exact absurd (by simpa using h1) hp
        · exact h1
  · rw [if_neg h]
    rw [List.find?_append]
    have hnone : m.find? (fun p => p.1 == k) = none := by
      rw [List.find?_eq_none]
      intro p hp hcontra
      exact h (List.any_eq_true.mpr ⟨p, hp, hcontra⟩)
    rw [hnone]
    simp [List.find?]

theorem mapGet_mapSet_ne {α : Type} (m : List (String × α)) (k k2 : String)
    (v : α) (h : k2 ≠ k) : mapGet (mapSet m k v) k2 = mapGet m k2 := by
  unfold mapGet mapSet
  by_cases hany : m.any (fun p => p.1 == k)
  · rw [if_pos hany]
    clear hany
    induction m with
    | nil => rfl
    | cons p rest ih =>
      by_cases hp : p.1 = k
      · rw [List.map_cons, if_pos (by simpa using hp)]
        rw [List.find?_cons_of_neg _ (by simpa using h.symm)]
        rw [List.find?_cons_of_neg _ (by rw [hp]; simpa using h.symm)]
        exact ih
      · rw [List.map_cons, if_neg (by simpa using hp)]
        by_cases hp2 : p.1 = k2
        · rw [List.find?_cons_of_pos _ (by simpa using hp2),
            List.find?_cons_of_pos _ (by simpa using hp2)]
        · rw [List.find?_cons_of_neg _ (by simpa using hp2),
            List.find?_cons_of_neg _ (by simpa using hp2)]
          exact ih
  · rw [if_neg hany]
    rw [List.find?_append]
    cases hf : m.find? (fun p => p.1 == k2) with
    | some q => rfl
    | none =>
      show (List.find? (fun p => p.1 == k2) [(k, v)]).map Prod.snd
        = Option.map Prod.snd none
      rw [List.find?_cons_of_neg _ (by simpa using h.symm)]
      rfl

theorem mapGet_mapDelete_self {α : Type} (m : List (String × α)) (k : String) :
    mapGet (mapDelete m k) k = none := by
  unfold mapGet mapDelete
  rw [List.find?_eq_none.mpr]
  · rfl
  · intro p hp
    have := (List.mem_filter.mp hp).2
    simpa using this

theorem mapGet_mapDelete_ne {α : Type} (m : List (String × α)) (k k2 : String)
    (h : k2 ≠ k) : mapGet (mapDelete m k) k2 = mapGet m k2 := by
  unfold mapGet mapDelete
  induction m with
  | nil => rfl
  | cons p rest ih =>
    by_cases hp : p.1 = k
    · rw [List.filter_cons_of_neg (by simpa using hp)]
      rw [List.find?_cons_of_neg _ (by rw [hp]; simpa using h.symm)]
      exact ih
    · rw [List.filter_cons_of_pos (by simpa using hp)]
      by_cases hp2 : p.1 = k2
      · rw [List.find?_cons_of_pos _ (by simpa using hp2),
          List.find?_cons_of_pos _ (by simpa using hp2)]
      · rw [List.find?_cons_of_neg _ (by simpa using hp2),
          List.find?_cons_of_neg _ (by simpa using hp2)]
        exact ih

theorem mapGet_mem {α : Type} {m : List (String × α)} {k : String} {v : α}
    (h : mapGet m k = some v) : (k, v) ∈ m := by
  unfold mapGet at h
  cases hf : m.find? (fun p => p.1 == k) with
  | none => rw [hf] at h; cases h
  | some p =>
    rw [hf] at h
    have hm := List.mem_of_find?_eq_some hf
    have hk : p.1 = k := by simpa using List.find?_some hf
    have hv : p.2 = v := by simpa using h
    rw [← hk, ← hv]
    exact hm

theorem mapDelete_length {α : Type} {m : List (String × α)} {k : String}
    {v : α} (hnd : (m.map Prod.fst).Nodup) (h : mapGet m k = some v) :
    (mapDelete m k).length + 1 = m.length := by
  induction m with
  | nil => unfold mapGet at h; cases h
  | cons p rest ih =>
    rw [List.map_cons, List.nodup_cons] at hnd
    by_cases hp : p.1 = k
    · unfold mapDelete
      rw [List.filter_cons_of_neg (by simpa using hp)]
      have hrest : List.filter (fun p => !(p.1 == k)) rest = rest := by
        rw [List.filter_eq_self]
        intro a ha
        have : a.1 ≠ k := by
          intro hcontra
          apply hnd.1
          rw [hp, ← hcontra]
          exact List.mem_map_of_mem Prod.fst ha
        simpa using this
      rw [hrest, List.length_cons]
    · unfold mapDelete
      rw [List.filter_cons_of_pos (by simpa using hp)]
      rw [List.length_cons, List.length_cons]
      have h2 : mapGet rest k = some v := by
        unfold mapGet at h ⊢
        rw [List.find?_cons_of_neg _ (by simpa using hp)] at h
        exact h
      rw [← ih hnd.2 h2]
      rfl

theorem getRoom_users (m : RoomManager) (rid : String) (now : Nat) :
    (getRoom m rid now).2.users = m.users := by
  unfold getRoom createRoom
  cases h : mapGet m.rooms rid <;> simp [h]

theorem getRoom_room (m : RoomManager) (rid : String) (now : Nat) :
    mapGet (getRoom m rid now).2.rooms rid = some (getRoom m rid now).1 := by
  unfold getRoom createRoom
  cases h : mapGet m.rooms rid with
  | none => simp [h, mapGet_mapSet_self]
  | some r => simp [h]

theorem joinRoom_full {m : RoomManager} {sid rid : String}
    {uname : Option String} {uid gname rcolor : String} {now : Nat}
    (h : (getRoom m rid now).1.users.length ≥ maxUsersPerRoom) :
    joinRoom m sid rid uname uid gname rcolor now
      = (JoinResult.err "Room is full", (getRoom m rid now).2) := by
  unfold joinRoom
  rw [if_pos h]

theorem joinRoom_not_full {m : RoomManager} {sid rid : String}
    {uname : Option String} {uid gname rcolor : String} {now : Nat}
    (h : ¬ (getRoom m rid now).1.users.length ≥ maxUsersPerRoom) :
    joinRoom m sid rid uname uid gname rcolor now
      = (JoinResult.ok (joinUser m sid rid uname uid gname rcolor now)
          (getRoomInfo (joinedRoom m sid rid uname uid gname rcolor now) now),
         joinedMgr m sid rid uname uid gname rcolor now) := by
  unfold joinRoom
  rw [if_neg h]

theorem leaveRoom_found {m : RoomManager} {sid : String} (now : Nat)
    {u0 : User} {room0 : Room}
    (h1 : mapGet m.users sid = some u0)
    (h2 : mapGet m.rooms u0.roomId = some room0) :
    leaveRoom m sid now
      = (some (u0, getRoomInfo
          { room0 with users := mapDelete room0.users u0.id } now),
         { m with
           rooms := mapSet m.rooms u0.roomId
             { room0 with users := mapDelete room0.users u0.id },
           users := mapDelete m.users sid }) := by
  unfold leaveRoom
  rw [h1]
  simp only [h2]

/-- C3 (amended).  `joinRoom` fails exactly when the (lazily created)
target room is at `maxUsersPerRoom`; the failure is the structured error
`Room is full` (not the spec's `room_full` token) and adds nothing to the
room or the session map; below the cap the join succeeds and indexes the
session in both maps; and after one member of a full room leaves, a join
succeeds again. -/
theorem c3_joinRoom_room_full (m : RoomManager) (sid sid2 rid : String)
    (uname : Option String) (uid gname rcolor : String)
    (now now2 now3 : Nat) :
    ((joinRoom m sid rid uname uid gname rcolor now).1.isOk = false ↔
      (getRoom m rid now).1.users.length ≥ maxUsersPerRoom) ∧
    ((getRoom m rid now).1.users.length ≤ maxUsersPerRoom →
      ((joinRoom m sid rid uname uid gname rcolor now).1.isOk = false ↔
        (getRoom m rid now).1.users.length = maxUsersPerRoom)) ∧
    ((getRoom m rid now).1.users.length ≥ maxUsersPerRoom →
      joinRoom m sid rid uname uid gname rcolor now
        = (JoinResult.err "Room is full", (getRoom m rid now).2) ∧
      (joinRoom m sid rid uname uid gname rcolor now).2.users = m.users ∧
      mapGet (joinRoom m sid rid uname uid gname rcolor now).2.rooms rid
        = some (getRoom m rid now).1) ∧
    ((getRoom m rid now).1.users.length < maxUsersPerRoom →
      (joinRoom m sid rid uname uid gname rcolor now).1.isOk = true ∧
      mapGet (joinRoom m sid rid uname uid gname rcolor now).2.users sid
        = some (joinUser m sid rid uname uid gname rcolor now) ∧
      ∃ room2,
        mapGet (joinRoom m sid rid uname uid gname rcolor now).2.rooms rid
          = some room2 ∧
        mapGet room2.users uid
          = some (joinUser m sid rid uname uid gname rcolor now)) ∧
    (∀ u0 room0,
      mapGet m.users sid2 = some u0 →
      mapGet m.rooms u0.roomId = some room0 →
      (room0.users.map Prod.fst).Nodup →
      (∃ w, mapGet room0.users u0.id = some w) →
      room0.users.length = maxUsersPerRoom →
      (joinRoom (leaveRoom m sid2 now2).2 sid u0.roomId uname uid gname
        rcolor now3).1.isOk = true) := by
  refine ⟨?_, ?_, ?_, ?_, ?_⟩
  · by_cases h : (getRoom m rid now).1.users.length ≥ maxUsersPerRoom
    · rw [joinRoom_full h]
      simp [JoinResult.isOk, h]
    · rw [joinRoom_not_full h]
      simp [JoinResult.isOk, h]
  · intro hle
    by_cases h : (getRoom m rid now).1.users.length ≥ maxUsersPerRoom
    · rw [joinRoom_full h]
      simp only [JoinResult.isOk]
      constructor
      · intro _; omega
      · intro _; trivial
    · rw [joinRoom_not_full h]
      simp only [JoinResult.isOk]
      constructor
      · intro hc; cases hc
      · intro heq; omega
  · intro h
    rw [joinRoom_full h]
    exact ⟨rfl, getRoom_users m rid now, getRoom_room m rid now⟩
  · intro h
    rw [joinRoom_not_full (by omega)]
    refine ⟨rfl, ?_, ?_⟩
    · show mapGet (joinedMgr m sid rid uname uid gname rcolor now).users sid
        = _
      unfold joinedMgr
      exact mapGet_mapSet_self _ _ _
    · refine ⟨joinedRoom m sid rid uname uid gname rcolor now, ?_, ?_⟩
      · show mapGet (joinedMgr m sid rid uname uid gname rcolor now).rooms rid
          = _
        unfold joinedMgr
        exact mapGet_mapSet_self _ _ _
      · unfold joinedRoom
        exact mapGet_mapSet_self _ _ _
  · rintro u0 room0 h1 h2 hnd ⟨w, hw⟩ hlen
    have hleave := leaveRoom_found now2 h1 h2
    have hm2 : (leaveRoom m sid2 now2).2
        = { m with
            rooms := mapSet m.rooms u0.roomId
              { room0 with users := mapDelete room0.users u0.id },
            users := mapDelete m.users sid2 } := by rw [hleave]
    have hroom : mapGet (leaveRoom m sid2 now2).2.rooms u0.roomId
        = some { room0 with users := mapDelete room0.users u0.id } := by
      rw [hm2]
      exact mapGet_mapSet_self _ _ _
    have hlen2 : (mapDelete room0.users u0.id).length + 1 = maxUsersPerRoom := by
      rw [mapDelete_length hnd hw, hlen]
    have hget : (getRoom (leaveRoom m sid2 now2).2 u0.roomId now3).1
        = { room0 with users := mapDelete room0.users u0.id } := by
      unfold getRoom
      rw [hroom]
    rw [joinRoom_not_full (by rw [hget]; simp only []; omega)]
    rfl

/-- A member of the concrete full room. -/
def fullUser (i : Nat) : User where
  id := natId i
  socketId := natId i
  name := "n"
  color := "c"
  roomId := "r"
  joinedAt := 0
  lastActivity := 0

/-- A concrete room at the 20-member capacity. -/
def fullRoom : Room where
  id := "r"
  users := (List.range maxUsersPerRoom).map (fun i => (natId i, fullUser i))
  operationLog := OperationLog.new "r" 0
  createdAt := 0
  lastActivity := 0

/-- A concrete manager holding the full room. -/
def fullMgr : RoomManager where
  rooms := [("r", fullRoom)]
  users := (List.range maxUsersPerRoom).map (fun i => (natId i, fullUser i))

/-- C3 counterexample: at capacity the code rejects with the error string
`Room is full`, not the spec's `room_full`. -/
theorem c3_counterexample_error_string :
    (joinRoom fullMgr "s21" "r" none "u" "g" "c" 5).1
      = JoinResult.err "Room is full" ∧
    "Room is full" ≠ "room_full" := by
  constructor
  · rw [joinRoom_full (by decide)]
  · decide

/-- Witness for C3 (amended): a join into a fresh manager succeeds. -/
theorem c3_joinRoom_room_full_witness :
    (joinRoom RoomManager.new "s" "r" none "u1" "g" "c" 1).1.isOk = true :=
  ((c3_joinRoom_room_full RoomManager.new "s" "x" "r" none "u1" "g" "c"
    1 1 1).2.2.2.1 (by decide)).1

/-- One `RoomManager` operation (the reaper is `reapRooms`, treated
separately because it can delete inhabited rooms). -/
inductive MgrStep where
  | join (sid rid : String) (uname : Option String)
      (uid gname rcolor : String) (now : Nat)
  | leave (sid : String) (now : Nat)
  | activity (sid : String) (now : Nat)
  | cleanup (rid : String) (now : Nat)

/-- Apply one operation to the manager state. -/
def applyStep (m : RoomManager) : MgrStep → RoomManager
  | .join sid rid uname uid gname rcolor now =>
      (joinRoom m sid rid uname uid gname rcolor now).2
  | .leave sid now => (leaveRoom m sid now).2
  | .activity sid now => updateActivity m sid now
  | .cleanup rid now => cleanupRoom m rid now

/-- Per-step side condition: a `join` must use a connection handle that is
not already a session and a generated user id unused in the target room —
what the random id generation and the one-join-per-connection protocol
provide. -/
def stepOk (m : RoomManager) : MgrStep → Prop
  | .join sid rid _ uid _ _ now =>
      mapGet m.users sid = none ∧
      mapGet (getRoom m rid now).1.users uid = none
  | _ => True

/-- All steps of a run satisfy their side conditions. -/
def StepsOk : RoomManager → List MgrStep → Prop
  | _, [] => True
  | m, s :: rest => stepOk m s ∧ StepsOk (applyStep m s) rest

/-- Key lists of all three map layers are duplicate-free. -/
def InvKeys (m : RoomManager) : Prop :=
  (m.rooms.map Prod.fst).Nodup ∧ (m.users.map Prod.fst).Nodup ∧
  ∀ p ∈ m.rooms, (p.2.users.map Prod.fst).Nodup

/-- Every session held by a room is indexed in the global session map under
its socket id, with the same record and the owning room's id. -/
def InvRoomSide (m : RoomManager) : Prop :=
  ∀ p ∈ m.rooms, ∀ q ∈ p.2.users,
    q.1 = q.2.id ∧ q.2.roomId = p.1 ∧ mapGet m.users q.2.socketId = some q.2

/-- Every session in the global map belongs to an existing room whose
membership holds the same record under the session's user id. -/
def InvSessionSide (m : RoomManager) : Prop :=
  ∀ s ∈ m.users, s.1 = s.2.socketId ∧
    ∃ room, mapGet m.rooms s.2.roomId = some room ∧
      mapGet room.users s.2.id = some s.2

/-- The membership/session agreement invariant of the spec. -/
def Inv (m : RoomManager) : Prop :=
  InvKeys m ∧ InvRoomSide m ∧ InvSessionSide m

theorem mem_mapSet {α : Type} {m : List (String × α)} {k : String} {v : α}
    {s : String × α} (h : s ∈ mapSet m k v) :
    s = (k, v) ∨ (s ∈ m ∧ s.1 ≠ k) := by
  unfold mapSet at h
  by_cases hany : m.any (fun p => p.1 == k)
  · rw [if_pos hany] at h
    obtain ⟨p, hp, hps⟩ := List.mem_map.mp h
    by_cases hpk : p.1 = k
    · rw [if_pos (by simpa using hpk)] at hps
      exact Or.inl hps.symm
    · rw [if_neg (by simpa using hpk)] at hps
      exact Or.inr ⟨hps ▸ hp, hps ▸ hpk⟩
  · rw [if_neg hany] at h
    rcases List.mem_append.mp h with h1 | h1
    · refine Or.inr ⟨h1, ?_⟩
      intro hcontra
      exact hany (List.any_eq_true.mpr ⟨s, h1, by simpa using hcontra⟩)
    · exact Or.inl (by simpa using h1)

theorem self_mem_mapSet {α : Type} (m : List (String × α)) (k : String)
    (v : α) : (k, v) ∈ mapSet m k v := by
  unfold mapSet
  by_cases hany : m.any (fun p => p.1 == k)
  · rw [if_pos hany]
    obtain ⟨p, hp, hpk⟩ := List.any_eq_true.mp hany
    refine List.mem_map.mpr ⟨p, hp, ?_⟩
    rw [if_pos hpk]
  · rw [if_neg hany]
    exact List.mem_append.mpr (Or.inr (List.mem_singleton.mpr rfl))

theorem mem_of_mem_mapSet_ne {α : Type} {m : List (String × α)} {k : String}
    {v : α} {s : String × α} (h : s ∈ mapSet m k v) (hne : s.1 ≠ k) :
    s ∈ m := by
  rcases mem_mapSet h with h1 | h1
  · exact absurd (by rw [h1]) hne
  · exact h1.1

theorem mem_mapDelete {α : Type} {m : List (String × α)} {k : String}
    {s : String × α} : s ∈ mapDelete m k ↔ s ∈ m ∧ s.1 ≠ k := by
  unfold mapDelete
  rw [List.mem_filter]
  constructor
  · rintro ⟨h1, h2⟩
    exact ⟨h1, by simpa using h2⟩
  · rintro ⟨h1, h2⟩
    exact ⟨h1, by simpa using h2⟩

theorem mapGet_of_mem_nodup {α : Type} {m : List (String × α)} {k : String}
    {v : α} (hnd : (m.map Prod.fst).Nodup) (h : (k, v) ∈ m) :
    mapGet m k = some v := by
  induction m with
  | nil => cases h
  | cons p rest ih =>
    rw [List.map_cons, List.nodup_cons] at hnd
    unfold mapGet
    by_cases hp : p.1 = k
    · rw [List.find?_cons_of_pos _ (by simpa using hp)]
      rcases List.mem_cons.mp h with h1 | h1
      · rw [← h1]
        rfl
      · exfalso
        apply hnd.1
        rw [hp]
        have : (k, v).1 ∈ List.map Prod.fst rest :=
          List.mem_map_of_mem Prod.fst h1
        exact this
    · rw [List.find?_cons_of_neg _ (by simpa using hp)]
      rcases List.mem_cons.mp h with h1 | h1
      · exact absurd (by rw [← h1]) hp
      · exact ih hnd.2 h1

theorem mapSet_keys_of_present {α : Type} {m : List (String × α)}
    {k : String} (v : α) (h : m.any (fun p => p.1 == k) = true) :
    (mapSet m k v).map Prod.fst = m.map Prod.fst := by
  unfold mapSet
  rw [if_pos h, List.map_map]
  apply List.map_congr_left
  intro p _
  by_cases hp : p.1 = k
  · simp [hp]
  · simp [hp]

theorem mapSet_keys_of_absent {α : Type} {m : List (String × α)}
    {k : String} (v : α) (h : ¬ m.any (fun p => p.1 == k) = true) :
    (mapSet m k v).map Prod.fst = m.map Prod.fst ++ [k] := by
  unfold mapSet
  rw [if_neg h, List.map_append]
  rfl

theorem mapDelete_keys_sublist {α : Type} (m : List (String × α))
    (k : String) :
    ((mapDelete m k).map Prod.fst).Sublist (m.map Prod.fst) :=
  (List.filter_sublist m).map Prod.fst

theorem any_key_iff {α : Type} (m : List (String × α)) (k : String) :
    m.any (fun p => p.1 == k) = true ↔ k ∈ m.map Prod.fst := by
  rw [List.any_eq_true]
  constructor
  · rintro ⟨p, hp, hpk⟩
    have : p.1 = k := by simpa using hpk
    rw [← this]
    exact List.mem_map_of_mem Prod.fst hp
  · intro h
    obtain ⟨p, hp, hpk⟩ := List.mem_map.mp h
    exact ⟨p, hp, by simpa using hpk⟩

theorem mapGet_none_iff {α : Type} (m : List (String × α)) (k : String) :
    mapGet m k = none ↔ k ∉ m.map Prod.fst := by
  unfold mapGet
  constructor
  · intro h hk
    obtain ⟨p, hp, hpk⟩ := List.mem_map.mp hk
    cases hf : m.find? (fun p => p.1 == k) with
    | some q => rw [hf] at h; cases h
    | none =>
      have := List.find?_eq_none.mp hf p hp
      exact this (by simpa using hpk)
  · intro h
    rw [List.find?_eq_none.mpr]
    · rfl
    · intro p hp hpk
      apply h
      have : p.1 = k := by simpa using hpk
      rw [← this]
      exact List.mem_map_of_mem Prod.fst hp

/-- The room object `createRoom` builds. -/
def freshRoom (rid : String) (now : Nat) : Room :=
  { id := rid, users := [], operationLog := OperationLog.new rid now,
    createdAt := now, lastActivity := now }

theorem getRoom_eq_of_none {m : RoomManager} {rid : String} {now : Nat}
    (h : mapGet m.rooms rid = none) :
    getRoom m rid now
      = (freshRoom rid now,
         { m with rooms := mapSet m.rooms rid (freshRoom rid now) }) := by
  unfold getRoom createRoom freshRoom
  simp only [h]

theorem getRoom_eq_of_some {m : RoomManager} {rid : String} {now : Nat}
    {r : Room} (h : mapGet m.rooms rid = some r) :
    getRoom m rid now = (r, m) := by
  unfold getRoom
  simp only [h]

theorem inv_getRoom {m : RoomManager} (rid : String) (now : Nat)
    (hinv : Inv m) : Inv (getRoom m rid now).2 := by
  cases h : mapGet m.rooms rid with
  | some r => rw [getRoom_eq_of_some h]; exact hinv
  | none =>
    rw [getRoom_eq_of_none h]
    obtain ⟨⟨hkr, hku, hkm⟩, hroom, hsess⟩ := hinv
    have hnotmem : rid ∉ m.rooms.map Prod.fst := (mapGet_none_iff _ _).mp h
    have habsent : ¬ m.rooms.any (fun p => p.1 == rid) = true := by
      rw [any_key_iff]
      exact hnotmem
    refine ⟨⟨?_, hku, ?_⟩, ?_, ?_⟩
    · show ((mapSet m.rooms rid (freshRoom rid now)).map Prod.fst).Nodup
      rw [mapSet_keys_of_absent _ habsent]
      exact List.Nodup.append hkr (List.nodup_singleton rid)
        ((List.disjoint_singleton).mpr hnotmem)
    · intro p hp
      rcases mem_mapSet hp with h1 | h1
      · rw [h1]
        exact List.nodup_nil
      · exact hkm p h1.1
    · intro p hp q hq
      rcases mem_mapSet hp with h1 | h1
      · rw [h1] at hq
        cases hq
      · exact hroom p h1.1 q hq
    · intro s hs
      obtain ⟨hsock, room, hr1, hr2⟩ := hsess s hs
      refine ⟨hsock, room, ?_, hr2⟩
      show mapGet (mapSet m.rooms rid (freshRoom rid now)) s.2.roomId = _
      rw [mapGet_mapSet_ne]
      · exact hr1
      · intro hcontra
        rw [hcontra] at hr1
        rw [h] at hr1
        cases hr1

theorem key_mem_of_mapGet_some {α : Type} {m : List (String × α)}
    {k : String} {v : α} (h : mapGet m k = some v) : k ∈ m.map Prod.fst :=
  List.mem_map_of_mem Prod.fst (mapGet_mem h)

theorem inv_join {m : RoomManager} {sid rid : String} {uname : Option String}
    {uid gname rcolor : String} {now : Nat} (hinv : Inv m)
    (hsid : mapGet m.users sid = none)
    (huid : mapGet (getRoom m rid now).1.users uid = none) :
    Inv (joinRoom m sid rid uname uid gname rcolor now).2 := by
  by_cases hfull : (getRoom m rid now).1.users.length ≥ maxUsersPerRoom
  · rw [joinRoom_full hfull]
    exact inv_getRoom rid now hinv
  · rw [joinRoom_not_full hfull]
    obtain ⟨⟨hkr, hku, hkm⟩, hroom, hsess⟩ := inv_getRoom rid now hinv
    have husers1 : (getRoom m rid now).2.users = m.users := getRoom_users m rid now
    have hsid1 : mapGet (getRoom m rid now).2.users sid = none := by
      rw [husers1]; exact hsid
    have hR0 : mapGet (getRoom m rid now).2.rooms rid
        = some (getRoom m rid now).1 := getRoom_room m rid now
    have hmemR0 : (rid, (getRoom m rid now).1) ∈ (getRoom m rid now).2.rooms :=
      mapGet_mem hR0
    have hsidnot : sid ∉ (getRoom m rid now).2.users.map Prod.fst :=
      (mapGet_none_iff _ _).mp hsid1
    have huidnot : uid ∉ (getRoom m rid now).1.users.map Prod.fst :=
      (mapGet_none_iff _ _).mp huid
    have hm2rooms : (joinedMgr m sid rid uname uid gname rcolor now).rooms
        = mapSet (getRoom m rid now).2.rooms rid
            (joinedRoom m sid rid uname uid gname rcolor now) := rfl
    have hm2users : (joinedMgr m sid rid uname uid gname rcolor now).users
        = mapSet (getRoom m rid now).2.users sid
            (joinUser m sid rid uname uid gname rcolor now) := rfl
    have hR2users : (joinedRoom m sid rid uname uid gname rcolor now).users
        = mapSet (getRoom m rid now).1.users uid
            (joinUser m sid rid uname uid gname rcolor now) := rfl
    refine ⟨⟨?_, ?_, ?_⟩, ?_, ?_⟩
    · rw [hm2rooms,
        mapSet_keys_of_present _ ((any_key_iff _ _).mpr
          (List.mem_map_of_mem Prod.fst hmemR0))]
      exact hkr
    · rw [hm2users, mapSet_keys_of_absent _ (by rw [any_key_iff]; exact hsidnot)]
      exact List.Nodup.append hku (List.nodup_singleton sid)
        ((List.disjoint_singleton).mpr hsidnot)
    · intro p hp
      rw [hm2rooms] at hp
      rcases mem_mapSet hp with h1 | h1
      · rw [h1]
        show ((joinedRoom m sid rid uname uid gname rcolor now).users.map
          Prod.fst).Nodup
        rw [hR2users,
          mapSet_keys_of_absent _ (by rw [any_key_iff]; exact huidnot)]
        exact List.Nodup.append (hkm _ hmemR0) (List.nodup_singleton uid)
          ((List.disjoint_singleton).mpr huidnot)
      · exact hkm p h1.1
    · intro p hp q hq
      rw [hm2rooms] at hp
      rw [hm2users]
      rcases mem_mapSet hp with h1 | h1
      · rw [h1] at hq ⊢
        simp only at hq ⊢
        rw [hR2users] at hq
        rcases mem_mapSet hq with h2 | h2
        · rw [h2]
          exact ⟨rfl, rfl, mapGet_mapSet_self _ _ _⟩
        · obtain ⟨hq1, hq2, hq3⟩ := hroom _ hmemR0 q h2.1
          refine ⟨hq1, hq2, ?_⟩
          rw [mapGet_mapSet_ne]
          · exact hq3
          · intro hcontra
            rw [hcontra] at hq3
            rw [hsid1] at hq3
            cases hq3
      · obtain ⟨hq1, hq2, hq3⟩ := hroom p h1.1 q hq
        refine ⟨hq1, hq2, ?_⟩
        rw [mapGet_mapSet_ne]
        · exact hq3
        · intro hcontra
          rw [hcontra] at hq3
          rw [hsid1] at hq3
          cases hq3
    · intro s hs
      rw [hm2users] at hs
      rcases mem_mapSet hs with h1 | h1
      · rw [h1]
        refine ⟨rfl, joinedRoom m sid rid uname uid gname rcolor now, ?_, ?_⟩
        · rw [hm2rooms]
          show mapGet (mapSet (getRoom m rid now).2.rooms rid
            (joinedRoom m sid rid uname uid gname rcolor now)) rid = _
          exact mapGet_mapSet_self _ _ _
        · rw [hR2users]
          exact mapGet_mapSet_self _ _ _
      · obtain ⟨hsock, room, hr1, hr2⟩ := hsess s h1.1
        refine ⟨hsock, ?_⟩
        by_cases hrid : s.2.roomId = rid
        · rw [hrid] at hr1
          have hre : room = (getRoom m rid now).1 := by
            rw [hR0] at hr1
            exact (Option.some.injEq _ _ ▸ hr1).symm
          refine ⟨joinedRoom m sid rid uname uid gname rcolor now, ?_, ?_⟩
          · rw [hm2rooms, hrid]
            exact mapGet_mapSet_self _ _ _
          · rw [hR2users]
            rw [mapGet_mapSet_ne]
            · rw [← hre]
              exact hr2
            · intro hcontra
              apply huidnot
              rw [← hcontra, ← hre]
              exact key_mem_of_mapGet_some hr2
        · refine ⟨room, ?_, hr2⟩
          rw [hm2rooms, mapGet_mapSet_ne _ _ _ _ hrid]
          exact hr1

theorem leaveRoom_found_snd {m : RoomManager} {sid : String} {now : Nat}
    {u0 : User} {room0 : Room}
    (h1 : mapGet m.users sid = some u0)
    (h2 : mapGet m.rooms u0.roomId = some room0) :
    (leaveRoom m sid now).2
      = { m with
          rooms := mapSet m.rooms u0.roomId
            { room0 with users := mapDelete room0.users u0.id },
          users := mapDelete m.users sid } := by
  rw [leaveRoom_found now h1 h2]

theorem inv_leave {m : RoomManager} {sid : String} {now : Nat}
    (hinv : Inv m) : Inv (leaveRoom m sid now).2 := by
  cases h1 : mapGet m.users sid with
  | none =>
    unfold leaveRoom
    simp only [h1]
    exact hinv
  | some u0 =>
    cases h2 : mapGet m.rooms u0.roomId with
    | none =>
      unfold leaveRoom
      simp only [h1, h2]
      exact hinv
    | some room0 =>
      rw [leaveRoom_found_snd h1 h2]
      obtain ⟨⟨hkr, hku, hkm⟩, hroom, hsess⟩ := hinv
      have hmemR0 : (u0.roomId, room0) ∈ m.rooms := mapGet_mem h2
      have hs0 := hsess (sid, u0) (mapGet_mem h1)
      have hsock0 : sid = u0.socketId := hs0.1
      have hu0room : mapGet room0.users u0.id = some u0 := by
        obtain ⟨-, roomA, hrA1, hrA2⟩ := hs0
        have : roomA = room0 := by
          simp only at hrA1
          rw [h2] at hrA1
          exact (Option.some.injEq _ _ ▸ hrA1).symm
        rw [← this]
        exact hrA2
      refine ⟨⟨?_, ?_, ?_⟩, ?_, ?_⟩
      · show ((mapSet m.rooms u0.roomId _).map Prod.fst).Nodup
        rw [mapSet_keys_of_present _ ((any_key_iff _ _).mpr
          (List.mem_map_of_mem Prod.fst hmemR0))]
        exact hkr
      · exact List.Nodup.sublist (mapDelete_keys_sublist m.users sid) hku
      · intro p hp
        rcases mem_mapSet hp with hh | hh
        · rw [hh]
          exact List.Nodup.sublist
            (mapDelete_keys_sublist room0.users u0.id) (hkm _ hmemR0)
        · exact hkm p hh.1
      · intro p hp q hq
        rcases mem_mapSet hp with hh | hh
        · rw [hh] at hq ⊢
          simp only at hq ⊢
          obtain ⟨hqm, hqne⟩ := mem_mapDelete.mp hq
          obtain ⟨hq1, hq2, hq3⟩ := hroom _ hmemR0 q hqm
          refine ⟨hq1, hq2, ?_⟩
          rw [mapGet_mapDelete_ne]
          · exact hq3
          · intro hcontra
            rw [hcontra] at hq3
            rw [h1] at hq3
            have : q.2 = u0 := by simpa using hq3.symm
            exact hqne (by rw [hq1, this])
        · obtain ⟨hq1, hq2, hq3⟩ := hroom p hh.1 q hq
          refine ⟨hq1, hq2, ?_⟩
          rw [mapGet_mapDelete_ne]
          · exact hq3
          · intro hcontra
            rw [hcontra] at hq3
            rw [h1] at hq3
            have hqu : q.2 = u0 := by simpa using hq3.symm
            apply hh.2
            rw [← hq2, hqu]
      · intro s hs
        obtain ⟨hsm, hsne⟩ := mem_mapDelete.mp hs
        obtain ⟨hsock, room, hr1, hr2⟩ := hsess s hsm
        refine ⟨hsock, ?_⟩
        by_cases hrid : s.2.roomId = u0.roomId
        · have hre : room = room0 := by
            rw [hrid, h2] at hr1
            exact (Option.some.injEq _ _ ▸ hr1).symm
          refine ⟨{ room0 with users := mapDelete room0.users u0.id }, ?_, ?_⟩
          · show mapGet (mapSet m.rooms u0.roomId _) s.2.roomId = _
            rw [hrid]
            exact mapGet_mapSet_self _ _ _
          · simp only
            rw [mapGet_mapDelete_ne]
            · rw [← hre]
              exact hr2
            · intro hcontra
              rw [hre, hcontra] at hr2
              rw [hu0room] at hr2
              have hsu : s.2 = u0 := by simpa using hr2.symm
              apply hsne
              rw [hsock, hsu, ← hsock0]
        · refine ⟨room, ?_, hr2⟩
          show mapGet (mapSet m.rooms u0.roomId _) s.2.roomId = _
          rw [mapGet_mapSet_ne _ _ _ _ hrid]
          exact hr1

theorem updateActivity_eq {m : RoomManager} {sid : String} {now : Nat}
    {user : User} {room : Room}
    (h1 : mapGet m.users sid = some user)
    (h2 : mapGet m.rooms user.roomId = some room)
    (h3 : room.users.any (fun p => p.1 == user.id) = true) :
    updateActivity m sid now
      = { m with
          rooms := mapSet m.rooms user.roomId
            { room with
              users := mapSet room.users user.id
                { user with lastActivity := now },
              lastActivity := now },
          users := mapSet m.users sid { user with lastActivity := now } } := by
  unfold updateActivity
  simp only [h1, h2, h3, if_true]

theorem inv_activity {m : RoomManager} {sid : String} {now : Nat}
    (hinv : Inv m) : Inv (updateActivity m sid now) := by
  cases h1 : mapGet m.users sid with
  | none =>
    unfold updateActivity
    simp only [h1]
    exact hinv
  | some user =>
    obtain ⟨⟨hkr, hku, hkm⟩, hroom, hsess⟩ := hinv
    have hs0 := hsess (sid, user) (mapGet_mem h1)
    have hsock0 : sid = user.socketId := hs0.1
    obtain ⟨-, roomA, hrA1, hrA2⟩ := hs0
    have hrA1b : mapGet m.rooms user.roomId = some roomA := hrA1
    have hrA2b : mapGet roomA.users user.id = some user := hrA2
    cases h2 : mapGet m.rooms user.roomId with
    | none =>
      rw [h2] at hrA1b
      cases hrA1b
    | some room =>
      have hre : roomA = room := by
        rw [h2] at hrA1b
        exact (Option.some.injEq _ _ ▸ hrA1b).symm
      rw [hre] at hrA2b
      have hany : room.users.any (fun p => p.1 == user.id) = true := by
        rw [any_key_iff]
        exact key_mem_of_mapGet_some hrA2b
      rw [updateActivity_eq h1 h2 hany]
      have hmemR : (user.roomId, room) ∈ m.rooms := mapGet_mem h2
      refine ⟨⟨?_, ?_, ?_⟩, ?_, ?_⟩
      · show ((mapSet m.rooms user.roomId _).map Prod.fst).Nodup
        rw [mapSet_keys_of_present _ ((any_key_iff _ _).mpr
          (List.mem_map_of_mem Prod.fst hmemR))]
        exact hkr
      · show ((mapSet m.users sid _).map Prod.fst).Nodup
        rw [mapSet_keys_of_present _ ((any_key_iff _ _).mpr
          (List.mem_map_of_mem Prod.fst (mapGet_mem h1)))]
        exact hku
      · intro p hp
        rcases mem_mapSet hp with hh | hh
        · rw [hh]
          show ((mapSet room.users user.id _).map Prod.fst).Nodup
          rw [mapSet_keys_of_present _ hany]
          exact hkm _ hmemR
        · exact hkm p hh.1
      · intro p hp q hq
        rcases mem_mapSet hp with hh | hh
        · rw [hh] at hq ⊢
          simp only at hq ⊢
          rcases mem_mapSet hq with h3 | h3
          · rw [h3]
            refine ⟨rfl, rfl, ?_⟩
            show mapGet (mapSet m.users sid _) user.socketId = _
            rw [← hsock0]
            exact mapGet_mapSet_self _ _ _
          · obtain ⟨hq1, hq2, hq3⟩ := hroom _ hmemR q h3.1
            refine ⟨hq1, hq2, ?_⟩
            rw [mapGet_mapSet_ne]
            · exact hq3
            · intro hcontra
              rw [hcontra, h1] at hq3
              have : q.2 = user := by simpa using hq3.symm
              exact h3.2 (by rw [hq1, this])
        · obtain ⟨hq1, hq2, hq3⟩ := hroom p hh.1 q hq
          refine ⟨hq1, hq2, ?_⟩
          rw [mapGet_mapSet_ne]
          · exact hq3
          · intro hcontra
            rw [hcontra, h1] at hq3
            have hqu : q.2 = user := by simpa using hq3.symm
            apply hh.2
            rw [← hq2, hqu]
      · intro s hs
        rcases mem_mapSet hs with hh | hh
        · rw [hh]
          refine ⟨hsock0, ?_⟩
          refine ⟨{ room with
            users := mapSet room.users user.id
              { user with lastActivity := now },
            lastActivity := now }, ?_, ?_⟩
          · show mapGet (mapSet m.rooms user.roomId _) user.roomId = _
            exact mapGet_mapSet_self _ _ _
          · show mapGet (mapSet room.users user.id _) user.id = _
            exact mapGet_mapSet_self _ _ _
        · obtain ⟨hsock, room', hr1, hr2⟩ := hsess s hh.1
          refine ⟨hsock, ?_⟩
          by_cases hrid : s.2.roomId = user.roomId
          · have hre2 : room' = room := by
              rw [hrid, h2] at hr1
              exact (Option.some.injEq _ _ ▸ hr1).symm
            refine ⟨{ room with
              users := mapSet room.users user.id
                { user with lastActivity := now },
              lastActivity := now }, ?_, ?_⟩
            · show mapGet (mapSet m.rooms user.roomId _) s.2.roomId = _
              rw [hrid]
              exact mapGet_mapSet_self _ _ _
            · simp only
              rw [mapGet_mapSet_ne]
              · rw [← hre2]
                exact hr2
              · intro hcontra
                rw [hre2, hcontra, hrA2b] at hr2
                have hsu : s.2 = user := by simpa using hr2.symm
                apply hh.2
                rw [hsock, hsu, ← hsock0]
          · refine ⟨room', ?_, hr2⟩
            show mapGet (mapSet m.rooms user.roomId _) s.2.roomId = _
            rw [mapGet_mapSet_ne _ _ _ _ hrid]
            exact hr1

theorem inv_cleanup {m : RoomManager} {rid : String} {now : Nat}
    (hinv : Inv m) : Inv (cleanupRoom m rid now) := by
  unfold cleanupRoom
  cases h : mapGet m.rooms rid with
  | none => exact hinv
  | some room =>
    simp only
    by_cases hc : room.users.length = 0 ∧ (now : Int) - room.lastActivity > 60000
    · rw [if_pos hc]
      obtain ⟨⟨hkr, hku, hkm⟩, hroom, hsess⟩ := hinv
      refine ⟨⟨?_, hku, ?_⟩, ?_, ?_⟩
      · exact List.Nodup.sublist (mapDelete_keys_sublist m.rooms rid) hkr
      · intro p hp
        exact hkm p (mem_mapDelete.mp hp).1
      · intro p hp q hq
        exact hroom p (mem_mapDelete.mp hp).1 q hq
      · intro s hs
        obtain ⟨hsock, room', hr1, hr2⟩ := hsess s hs
        refine ⟨hsock, room', ?_, hr2⟩
        rw [mapGet_mapDelete_ne]
        · exact hr1
        · intro hcontra
          rw [hcontra, h] at hr1
          have hre : room' = room := (Option.some.injEq _ _ ▸ hr1).symm
          rw [hre] at hr2
          have hnil : room.users = [] := List.length_eq_zero.mp hc.1
          rw [hnil] at hr2
          simp [mapGet] at hr2
    · rw [if_neg hc]
      exact hinv

theorem inv_new : Inv RoomManager.new := by
  refine ⟨⟨List.nodup_nil, List.nodup_nil, ?_⟩, ?_, ?_⟩
  · intro p hp; cases hp
  · intro p hp; cases hp
  · intro s hs; cases hs

theorem inv_steps (steps : List MgrStep) (m : RoomManager) (hinv : Inv m)
    (hok : StepsOk m steps) : Inv (steps.foldl applyStep m) := by
  induction steps generalizing m with
  | nil => exact hinv
  | cons s rest ih =>
    obtain ⟨hs, hrest⟩ := hok
    refine ih (applyStep m s) ?_ hrest
    cases s with
    | join sid rid uname uid gname rcolor now => exact inv_join hinv hs.1 hs.2
    | leave sid now => exact inv_leave hinv
    | activity sid now => exact inv_activity hinv
    | cleanup rid now => exact inv_cleanup hinv

theorem leave_clears {m : RoomManager} {sid : String} {now : Nat}
    (hinv : Inv m) :
    mapGet (leaveRoom m sid now).2.users sid = none ∧
    ∀ p ∈ (leaveRoom m sid now).2.rooms, ∀ q ∈ p.2.users,
      q.2.socketId ≠ sid := by
  cases h1 : mapGet m.users sid with
  | none =>
    unfold leaveRoom
    simp only [h1]
    refine ⟨trivial, ?_⟩
    intro p hp q hq hcontra
    obtain ⟨-, -, hq3⟩ := hinv.2.1 p hp q hq
    rw [hcontra, h1] at hq3
    cases hq3
  | some u0 =>
    obtain ⟨hsock0, roomA, hrA1, hrA2⟩ := hinv.2.2 (sid, u0) (mapGet_mem h1)
    have hrA1b : mapGet m.rooms u0.roomId = some roomA := hrA1
    cases h2 : mapGet m.rooms u0.roomId with
    | none =>
      rw [h2] at hrA1b
      cases hrA1b
    | some room0 =>
      rw [leaveRoom_found_snd h1 h2]
      refine ⟨mapGet_mapDelete_self _ _, ?_⟩
      intro p hp q hq hcontra
      rcases mem_mapSet hp with hh | hh
      · rw [hh] at hq
        simp only at hq
        obtain ⟨hqm, hqne⟩ := mem_mapDelete.mp hq
        obtain ⟨hq1, -, hq3⟩ := hinv.2.1 _ (mapGet_mem h2) q hqm
        rw [hcontra, h1] at hq3
        have hqu : q.2 = u0 := by simpa using hq3.symm
        exact hqne (by rw [hq1, hqu])
      · obtain ⟨hq1, hq2, hq3⟩ := hinv.2.1 p hh.1 q hq
        rw [hcontra, h1] at hq3
        have hqu : q.2 = u0 := by simpa using hq3.symm
        exact hh.2 (by rw [← hq2, hqu])

/-- C8 (amended).  Over every run of `joinRoom`, `leaveRoom`,
`updateActivity` and the scheduled empty-room cleanup from a fresh manager
— with each join using a connection not already in the session map and a
generated user id unused in its room, as the random generator and the
one-join-per-connection protocol provide — the room membership maps and
the global session map agree in both directions, and after `leaveRoom`
neither map references the departed connection.  (The periodic reaper is
excluded: its 1-hour branch deletes inhabited rooms and breaks the
session→room direction; see the counterexample.) -/
theorem c8_membership_sessions_agree (steps : List MgrStep)
    (hok : StepsOk RoomManager.new steps) :
    Inv (steps.foldl applyStep RoomManager.new) ∧
    (∀ sid now,
      mapGet ((leaveRoom (steps.foldl applyStep RoomManager.new) sid
        now).2).users sid = none ∧
      ∀ p ∈ (leaveRoom (steps.foldl applyStep RoomManager.new) sid
          now).2.rooms,
        ∀ q ∈ p.2.users, q.2.socketId ≠ sid) := by
  have hinv := inv_steps steps RoomManager.new inv_new hok
  exact ⟨hinv, fun sid now => leave_clears hinv⟩

/-- Witness for C8 (amended): one join from a fresh manager. -/
theorem c8_membership_sessions_agree_witness :
    Inv ([MgrStep.join "s1" "r1" none "u1" "g" "c" 0].foldl applyStep
      RoomManager.new) :=
  (c8_membership_sessions_agree [MgrStep.join "s1" "r1" none "u1" "g" "c" 0]
    ⟨⟨rfl, rfl⟩, trivial⟩).1

/-- C8 counterexample: the periodic reaper's 1-hour branch deletes a room
that still has a member, leaving that session in the global map with no
room — the two maps no longer agree. -/
theorem c8_counterexample_reaper :
    ¬ Inv (reapRooms (applyStep RoomManager.new
        (MgrStep.join "s1" "r1" none "u1" "g" "c" 0)) 3600001) := by
  intro hinv
  have hmem : ("s1", joinUser RoomManager.new "s1" "r1" none "u1" "g" "c" 0)
      ∈ (reapRooms (applyStep RoomManager.new
          (MgrStep.join "s1" "r1" none "u1" "g" "c" 0)) 3600001).users := by
    decide
  obtain ⟨-, room, hr1, -⟩ := hinv.2.2 _ hmem
  have hrooms : (reapRooms (applyStep RoomManager.new
      (MgrStep.join "s1" "r1" none "u1" "g" "c" 0)) 3600001).rooms = [] := by
    decide
  rw [hrooms] at hr1
  simp [mapGet] at hr1

end Canvas
